import Mathlib

/-!
Verification of the durablelinks-core link engine.

This file gives a shallow embedding, in Lean 4, of the link-parameter
normalization, validation, deduplication and resolution engine of the
`durablelinks-core` Go repository, and proves or refutes the frozen claims
about it.

Embedding conventions:

* Go `*string` / `*int64` fields become `Option String` / `Option Int`.
* The SQL store becomes a `List` of rows in insertion order; `LIMIT 1`
  queries return the first matching row.
* `crypto/rand` randomness is passed in explicitly: `generateDurableLinkPath`
  receives the list of random bytes that `rand.Read` would have produced.
* `crypto/sha256` (Go standard library) is implemented concretely below,
  byte for byte, over `Nat` arithmetic (`% 2^32` where Go wraps).
* `net/url.Parse` (Go standard library) is modelled by `urlParse` below,
  following the control flow of Go's parser for the URL shapes this service
  handles; percent-escapes are treated as literal characters and IPv6
  bracket literals are not modelled.

The repository contains two variant implementations of the service
("structured", over typed columns, and "flattened", over an encoded query
string); both are embedded, since several claims cite both.
-/

namespace DurableLinks

/-! Basic character classes used by the Go code (`strings`, `net/url`). -/

def isDigitCh (c : Char) : Bool := '0' ≤ c && c ≤ '9'

def isAlphaCh (c : Char) : Bool := ('a' ≤ c && c ≤ 'z') || ('A' ≤ c && c ≤ 'Z')

def isAlnumCh (c : Char) : Bool := isAlphaCh c || isDigitCh c

/-- ASCII lower-casing of one character, as `strings.ToLower` does for the
ASCII range (the only range this service's inputs use). -/
def lowerCh (c : Char) : Char :=
  if 'A' ≤ c && c ≤ 'Z' then Char.ofNat (c.toNat + 32) else c

/-- ASCII upper-casing of one character, as `strings.ToUpper` does for ASCII. -/
def upperCh (c : Char) : Char :=
  if 'a' ≤ c && c ≤ 'z' then Char.ofNat (c.toNat - 32) else c

/-- Models `strings.ToLower` on ASCII strings. -/
def strToLower (s : String) : String := String.mk (s.data.map lowerCh)

/-- Models `strings.ToUpper` on ASCII strings. -/
def strToUpper (s : String) : String := String.mk (s.data.map upperCh)

/-- Models Go `unicode.IsSpace` restricted to the ASCII whitespace characters
(space, tab, newline, carriage return, vertical tab, form feed). -/
def isSpaceCh (c : Char) : Bool :=
  c = ' ' || c = '\t' || c = '\n' || c = '\r' || c.toNat = 11 || c.toNat = 12

/-- Models `strings.TrimSpace` (ASCII whitespace). -/
def trimSpace (s : String) : String :=
  String.mk (((s.data.dropWhile isSpaceCh).reverse.dropWhile isSpaceCh).reverse)

/-! SHA-256, exactly as `crypto/sha256` computes it, over `Nat` with explicit
wrapping at `2^32`. Messages are lists of bytes (each a `Nat < 256`). -/

def w32 (n : Nat) : Nat := n % 4294967296

def rotr32 (x n : Nat) : Nat := (x >>> n) ||| w32 (x <<< (32 - n))

def shaCh (x y z : Nat) : Nat := (x &&& y) ^^^ ((x ^^^ 4294967295) &&& z)

def shaMaj (x y z : Nat) : Nat := (x &&& y) ^^^ (x &&& z) ^^^ (y &&& z)

def bigSigma0 (x : Nat) : Nat := rotr32 x 2 ^^^ rotr32 x 13 ^^^ rotr32 x 22

def bigSigma1 (x : Nat) : Nat := rotr32 x 6 ^^^ rotr32 x 11 ^^^ rotr32 x 25

def smlSigma0 (x : Nat) : Nat := rotr32 x 7 ^^^ rotr32 x 18 ^^^ (x >>> 3)

def smlSigma1 (x : Nat) : Nat := rotr32 x 17 ^^^ rotr32 x 19 ^^^ (x >>> 10)

def shaK : List Nat :=
  [116352408, 1899447441, 3049323471, 3921009573, 961987163, 1508970993,
   2453635748, 2870763221, 3624381080, 310598401, 607225278, 1426881987,
   1925078388, 2162078206, 2614888103, 3248222580, 3835390401, 4022224774,
   264347078, 604807628, 770255983, 1249150122, 1555081692, 1996064986,
   2554220882, 2821834349, 2952996808, 3210313671, 3336571891, 3584528711,
   113926993, 338241895, 666307205, 773529912, 1294757372, 1396182291,
   1695183700, 1986661051, 2177026350, 2456956037, 2730485921, 2820302411,
   3259730800, 3345764771, 3516065817, 3600352804, 4094571909, 275423344,
   430227734, 506948616, 659060556, 883997877, 958139571, 1322822218,
   1537002063, 1747873779, 1955562222, 2024104815, 2227730452, 2361852424,
   2428436474, 2756734187, 3204031479, 3329325298]

def shaH0 : List Nat :=
  [779033703, 3144134277, 1013904242, 2773480762,
   1359893119, 2600822924, 528734635, 1541459225]

/-- Big-endian 32-bit words from a block of bytes. -/
def bytesToWords : List Nat → List Nat
  | b0 :: b1 :: b2 :: b3 :: rest =>
      (((b0 * 256 + b1) * 256 + b2) * 256 + b3) :: bytesToWords rest
  | _ => []

/-- The message-schedule extension; `acc` holds the words produced so far in
reverse order, `n` counts the remaining extension steps. -/
def scheduleAux : Nat → List Nat → List Nat
  | 0, acc => acc.reverse
  | n + 1, acc =>
      let t := w32 (smlSigma1 (acc.getD 1 0) + acc.getD 6 0 +
                    smlSigma0 (acc.getD 14 0) + acc.getD 15 0)
      scheduleAux n (t :: acc)

/-- The 64-word message schedule of one 64-byte block. -/
def shaSchedule (block : List Nat) : List Nat :=
  scheduleAux 48 (bytesToWords block).reverse

/-- One step of the SHA-256 compression loop. -/
def shaRound (st : Nat × Nat × Nat × Nat × Nat × Nat × Nat × Nat) (k w : Nat) :
    Nat × Nat × Nat × Nat × Nat × Nat × Nat × Nat :=
  match st with
  | (a, b, c, d, e, f, g, h) =>
      let t1 := w32 (h + bigSigma1 e + shaCh e f g + k + w)
      let t2 := w32 (bigSigma0 a + shaMaj a b c)
      (w32 (t1 + t2), a, b, c, w32 (d + t1), e, f, g)

def shaRounds : List Nat → List Nat →
    Nat × Nat × Nat × Nat × Nat × Nat × Nat × Nat →
    Nat × Nat × Nat × Nat × Nat × Nat × Nat × Nat
  | k :: ks, w :: ws, st => shaRounds ks ws (shaRound st k w)
  | _, _, st => st

/-- Compress one 64-byte block into the running hash state (8 words). -/
def shaCompress (hs : List Nat) (block : List Nat) : List Nat :=
  let ws := shaSchedule block
  match shaRounds shaK ws
      (hs.getD 0 0, hs.getD 1 0, hs.getD 2 0, hs.getD 3 0,
       hs.getD 4 0, hs.getD 5 0, hs.getD 6 0, hs.getD 7 0) with
  | (a, b, c, d, e, f, g, h) =>
      [w32 (hs.getD 0 0 + a), w32 (hs.getD 1 0 + b), w32 (hs.getD 2 0 + c),
       w32 (hs.getD 3 0 + d), w32 (hs.getD 4 0 + e), w32 (hs.getD 5 0 + f),
       w32 (hs.getD 6 0 + g), w32 (hs.getD 7 0 + h)]

def shaBlocksF : Nat → List Nat → List Nat → List Nat
  | 0, hs, _ => hs
  | _ + 1, hs, [] => hs
  | n + 1, hs, b :: rest =>
      shaBlocksF n (shaCompress hs ((b :: rest).take 64)) (rest.drop 63)

/-- Fold the compression function over the 64-byte blocks of the message.
The fuel bounds the block count, so the recursion is structural and the
whole digest reduces inside the kernel. -/
def shaBlocks (hs : List Nat) (bytes : List Nat) : List Nat :=
  shaBlocksF (bytes.length / 64 + 1) hs bytes

/-- SHA-256 padding: a `0x80` byte, zeros to 56 mod 64, then the bit length
in 8 big-endian bytes. -/
def shaPad (msg : List Nat) : List Nat :=
  let l := msg.length
  let zeros := (119 - l % 64) % 64
  msg ++ 0x80 :: List.replicate zeros 0 ++
    ((List.range 8).map fun i => (8 * l) >>> (8 * (7 - i)) % 256)

/-- The SHA-256 digest of a byte list, as 32 bytes. -/
def sha256Bytes (msg : List Nat) : List Nat :=
  (shaBlocks shaH0 (shaPad msg)).flatMap fun word =>
    [word >>> 24 % 256, word >>> 16 % 256, word >>> 8 % 256, word % 256]

def hexDigit (n : Nat) : Char :=
  if n < 10 then Char.ofNat (48 + n) else Char.ofNat (87 + n)

/-- Lowercase hex rendering of a byte list, as Go's `fmt.Sprintf("%x", ...)`. -/
def bytesToHex (bs : List Nat) : String :=
  String.mk (bs.flatMap fun b => [hexDigit (b / 16 % 16), hexDigit (b % 16)])

/-- UTF-8 bytes of one character, as Go's `[]byte(string)` conversion. -/
def utf8Ch (c : Char) : List Nat :=
  let n := c.toNat
  if n < 0x80 then [n]
  else if n < 0x800 then [0xc0 + n / 64, 0x80 + n % 64]
  else if n < 0x10000 then [0xe0 + n / 4096, 0x80 + n / 64 % 64, 0x80 + n % 64]
  else [0xf0 + n / 262144, 0x80 + n / 4096 % 64, 0x80 + n / 64 % 64, 0x80 + n % 64]

/-- The UTF-8 byte sequence of a string (Go's `[]byte(s)`). -/
def strBytes (s : String) : List Nat := s.data.flatMap utf8Ch

/-- The lowercase-hex SHA-256 digest of a string, as the Go expression
`fmt.Sprintf("%x", sha256.Sum256([]byte(s)))`. -/
def sha256Hex (s : String) : String := bytesToHex (sha256Bytes (strBytes s))

/-! Decimal rendering, modelling Go's `fmt.Sprintf("%d", ...)` and
`strconv`. Defined with explicit fuel so it reduces inside the kernel. -/

def digitCh (n : Nat) : Char := Char.ofNat (48 + n)

def natDecCore : Nat → Nat → List Char
  | 0, _ => []
  | fuel + 1, n =>
      if n = 0 then [] else natDecCore fuel (n / 10) ++ [digitCh (n % 10)]

/-- Decimal rendering of a natural number. -/
def natDec (n : Nat) : String :=
  if n = 0 then "0" else String.mk (natDecCore n n)

/-- Decimal rendering of an `int64`, as `fmt.Sprintf("%d", ...)`. -/
def intDec : Int → String
  | Int.ofNat m => natDec m
  | Int.negSucc m => "-" ++ natDec (m + 1)

/-! The data model: `models.DurableLink` and its parameter groups.  The
struct definitions themselves are not among the repository's source files;
their fields are reconstructed, one for one, from `ToDurableLink` and
`FromDurableLink` in `models/dbmodels.go`, which read and write every field.
Go pointer fields become `Option`; `atv` embeds the Go field `At` (`at` is a
Lean keyword). -/

structure AndroidParameters where
  androidPackageName : Option String
  androidFallbackLink : Option String
  androidMinPackageVersionCode : Option String
deriving DecidableEq

structure IOSParameters where
  iosFallbackLink : Option String
  iosIpadFallbackLink : Option String
  iosAppStoreId : Option Int
deriving DecidableEq

structure OtherPlatformParameters where
  fallbackURL : Option String
deriving DecidableEq

structure SocialMetaTagInfo where
  socialTitle : Option String
  socialDescription : Option String
  socialImageLink : Option String
deriving DecidableEq

structure MarketingParameters where
  utmSource : Option String
  utmMedium : Option String
  utmCampaign : Option String
  utmTerm : Option String
  utmContent : Option String
deriving DecidableEq

structure ITunesConnectAnalytics where
  pt : Option String
  atv : Option String
  ct : Option String
  mt : Option String
deriving DecidableEq

structure AnalyticsInfo where
  marketingParameters : MarketingParameters
  itunesConnectAnalytics : ITunesConnectAnalytics
deriving DecidableEq

structure DurableLink where
  host : String
  link : String
  androidParameters : AndroidParameters
  iosParameters : IOSParameters
  otherPlatformParameters : OtherPlatformParameters
  socialMetaTagInfo : SocialMetaTagInfo
  analyticsInfo : AnalyticsInfo
deriving DecidableEq

/-- `models.DurableLinkDB` (structured schema, `models/dbmodels.go`).
`createdAt`/`updatedAt` timestamps are plain numbers here. -/
structure DurableLinkDB where
  id : Int
  host : String
  path : String
  link : String
  isUnguessablePath : Bool
  projectID : Option String
  androidPackageName : Option String
  androidFallbackLink : Option String
  androidMinVersion : Option String
  iosFallbackLink : Option String
  iosIpadFallbackLink : Option String
  iosAppStoreID : Option Int
  socialTitle : Option String
  socialDescription : Option String
  socialImageLink : Option String
  utmSource : Option String
  utmMedium : Option String
  utmCampaign : Option String
  utmTerm : Option String
  utmContent : Option String
  itunesPt : Option String
  itunesAt : Option String
  itunesCt : Option String
  itunesMt : Option String
  otherFallbackURL : Option String
  paramsHash : String
  createdAt : Nat
  updatedAt : Nat
deriving DecidableEq

/-- `models.stringPtrOrEmpty`: an absent field contributes the sentinel
byte `0x01`, a present field contributes its value. -/
def stringPtrOrEmpty : Option String → String
  | none => "\x01"
  | some s => s

/-- `models.int64PtrToString`: sentinel for nil, decimal otherwise. -/
def int64PtrToString : Option Int → String
  | none => "\x01"
  | some i => intDec i

/-- The ordered list of the 19 optional-parameter contributions built by
`ComputeParamsHash` (`models/dbmodels.go`, lines 133-151). -/
def paramsParts (db : DurableLinkDB) : List String :=
  [stringPtrOrEmpty db.androidPackageName,
   stringPtrOrEmpty db.androidFallbackLink,
   stringPtrOrEmpty db.androidMinVersion,
   stringPtrOrEmpty db.iosFallbackLink,
   stringPtrOrEmpty db.iosIpadFallbackLink,
   int64PtrToString db.iosAppStoreID,
   stringPtrOrEmpty db.socialTitle,
   stringPtrOrEmpty db.socialDescription,
   stringPtrOrEmpty db.socialImageLink,
   stringPtrOrEmpty db.utmSource,
   stringPtrOrEmpty db.utmMedium,
   stringPtrOrEmpty db.utmCampaign,
   stringPtrOrEmpty db.utmTerm,
   stringPtrOrEmpty db.utmContent,
   stringPtrOrEmpty db.itunesPt,
   stringPtrOrEmpty db.itunesAt,
   stringPtrOrEmpty db.itunesCt,
   stringPtrOrEmpty db.itunesMt,
   stringPtrOrEmpty db.otherFallbackURL]

/-- The joining loop of `ComputeParamsHash`: parts joined with the NUL
separator byte. -/
def sepJoin : List String → String
  | [] => ""
  | [p] => p
  | p :: q :: ps => p ++ "\x00" ++ sepJoin (q :: ps)

/-- The canonical serialization hashed by `ComputeParamsHash` (its local
variable `combined`). -/
def combinedParams (db : DurableLinkDB) : String := sepJoin (paramsParts db)

/-- `models.DurableLinkDB.ComputeParamsHash`: SHA-256 of the NUL-joined
optional parameters, rendered as lowercase hex. -/
def ComputeParamsHash (db : DurableLinkDB) : String :=
  sha256Hex (combinedParams db)

/-- `models.FromDurableLink`: builds the database row from a `DurableLink`
plus the storage key. The `paramsHash` assignment models the
`BeforeCreate` GORM hook (structured variant) and the explicit
`db.ParamsHash = db.ComputeParamsHash()` call (`part_002` variant), both of
which set the hash before the row is persisted. -/
def FromDurableLink (dl : DurableLink) (host path : String)
    (isUnguessable : Bool) (projectID : Option String) : DurableLinkDB :=
  let base : DurableLinkDB :=
    { id := 0
      host := host
      path := path
      link := dl.link
      isUnguessablePath := isUnguessable
      projectID := projectID
      androidPackageName := dl.androidParameters.androidPackageName
      androidFallbackLink := dl.androidParameters.androidFallbackLink
      androidMinVersion := dl.androidParameters.androidMinPackageVersionCode
      iosFallbackLink := dl.iosParameters.iosFallbackLink
      iosIpadFallbackLink := dl.iosParameters.iosIpadFallbackLink
      iosAppStoreID := dl.iosParameters.iosAppStoreId
      socialTitle := dl.socialMetaTagInfo.socialTitle
      socialDescription := dl.socialMetaTagInfo.socialDescription
      socialImageLink := dl.socialMetaTagInfo.socialImageLink
      utmSource := dl.analyticsInfo.marketingParameters.utmSource
      utmMedium := dl.analyticsInfo.marketingParameters.utmMedium
      utmCampaign := dl.analyticsInfo.marketingParameters.utmCampaign
      utmTerm := dl.analyticsInfo.marketingParameters.utmTerm
      utmContent := dl.analyticsInfo.marketingParameters.utmContent
      itunesPt := dl.analyticsInfo.itunesConnectAnalytics.pt
      itunesAt := dl.analyticsInfo.itunesConnectAnalytics.atv
      itunesCt := dl.analyticsInfo.itunesConnectAnalytics.ct
      itunesMt := dl.analyticsInfo.itunesConnectAnalytics.mt
      otherFallbackURL := dl.otherPlatformParameters.fallbackURL
      paramsHash := ""
      createdAt := 0
      updatedAt := 0 }
  { base with paramsHash := ComputeParamsHash base }

/-- Equality of the 19 optional-parameter fields of two rows — the relation
the claims about `ComputeParamsHash` quantify over. -/
def optionalParamsEq (r1 r2 : DurableLinkDB) : Prop :=
  r1.androidPackageName = r2.androidPackageName ∧
  r1.androidFallbackLink = r2.androidFallbackLink ∧
  r1.androidMinVersion = r2.androidMinVersion ∧
  r1.iosFallbackLink = r2.iosFallbackLink ∧
  r1.iosIpadFallbackLink = r2.iosIpadFallbackLink ∧
  r1.iosAppStoreID = r2.iosAppStoreID ∧
  r1.socialTitle = r2.socialTitle ∧
  r1.socialDescription = r2.socialDescription ∧
  r1.socialImageLink = r2.socialImageLink ∧
  r1.utmSource = r2.utmSource ∧
  r1.utmMedium = r2.utmMedium ∧
  r1.utmCampaign = r2.utmCampaign ∧
  r1.utmTerm = r2.utmTerm ∧
  r1.utmContent = r2.utmContent ∧
  r1.itunesPt = r2.itunesPt ∧
  r1.itunesAt = r2.itunesAt ∧
  r1.itunesCt = r2.itunesCt ∧
  r1.itunesMt = r2.itunesMt ∧
  r1.otherFallbackURL = r2.otherFallbackURL

instance (r1 r2 : DurableLinkDB) : Decidable (optionalParamsEq r1 r2) := by
  unfold optionalParamsEq
  infer_instance

/-- A present optional string is clean when it contains neither the NUL
separator byte nor the `0x01` absent-sentinel byte; an absent field is
always clean. Field values that reach the hash are URLs and identifiers,
which satisfy this. -/
def cleanOpt : Option String → Bool
  | none => true
  | some s => s.data.all fun c => c ≠ '\x00' && c ≠ '\x01'

/-- All 18 optional string parameters of a row are clean (the `int64` App
Store ID field renders as decimal digits and can never collide with the
sentinel or separator, so it needs no condition). -/
def paramsClean (db : DurableLinkDB) : Bool :=
  cleanOpt db.androidPackageName && cleanOpt db.androidFallbackLink &&
  cleanOpt db.androidMinVersion && cleanOpt db.iosFallbackLink &&
  cleanOpt db.iosIpadFallbackLink && cleanOpt db.socialTitle &&
  cleanOpt db.socialDescription && cleanOpt db.socialImageLink &&
  cleanOpt db.utmSource && cleanOpt db.utmMedium &&
  cleanOpt db.utmCampaign && cleanOpt db.utmTerm &&
  cleanOpt db.utmContent && cleanOpt db.itunesPt &&
  cleanOpt db.itunesAt && cleanOpt db.itunesCt &&
  cleanOpt db.itunesMt && cleanOpt db.otherFallbackURL

/-! A model of Go's `net/url.Parse`, following its control flow for the URL
shapes this service handles. Percent-escapes are treated as literal
characters and IPv6 bracket hosts are rejected rather than parsed. -/

/-- Split a char list at the first occurrence of `target`, dropping it —
`strings.Cut`. The second component is empty when `target` is absent. -/
def cutFirst (target : Char) : List Char → List Char × List Char
  | [] => ([], [])
  | c :: cs =>
      if c = target then ([], cs)
      else
        let r := cutFirst target cs
        (c :: r.1, r.2)

/-- Split a char list at the first occurrence of `target`, keeping it at the
head of the second component (the `authority[:i], authority[i:]` split). -/
def splitFirstKeep (target : Char) : List Char → List Char × List Char
  | [] => ([], [])
  | c :: cs =>
      if c = target then ([], c :: cs)
      else
        let r := splitFirstKeep target cs
        (c :: r.1, r.2)

/-- Boolean list-prefix test. -/
def isPre : List Char → List Char → Bool
  | [], _ => true
  | _ :: _, [] => false
  | p :: ps, c :: cs => p = c && isPre ps cs

def strHasPre (p s : String) : Bool := isPre p.data s.data

def strHasSuf (suf s : List Char) : Bool := isPre suf.reverse s.reverse

def dropSuf (suf s : List Char) : List Char := (s.reverse.drop suf.length).reverse

/-- Whether `pat` occurs contiguously in the list (`strings.Contains`). -/
def containsSeq (pat : List Char) : List Char → Bool
  | [] => isPre pat []
  | c :: cs => isPre pat (c :: cs) || containsSeq pat cs

/-- Split at the last occurrence of `@` — `parseAuthority`'s
`strings.LastIndex(authority, "@")`: `(userinfo?, hostport)`. -/
def splitLastUser (l : List Char) : Option (List Char) × List Char :=
  if l.contains '@' then
    let r := cutFirst '@' l.reverse
    (some r.2.reverse, r.1.reverse)
  else (none, l)

/-- Split at the last colon: `(before, after)`, or `none` if no colon. -/
def splitLastColon (l : List Char) : Option (List Char × List Char) :=
  if l.contains ':' then
    let r := cutFirst ':' l.reverse
    some (r.2.reverse, r.1.reverse)
  else none

def isSchemeCh (c : Char) : Bool := isAlnumCh c || c = '+' || c = '-' || c = '.'

def schemeScan (acc : List Char) : List Char → Option (List Char × List Char)
  | [] => none
  | c :: cs =>
      if c = ':' then some (acc.reverse, cs)
      else if isSchemeCh c then schemeScan (c :: acc) cs
      else none

/-- Go's `getScheme`: `none` is the fatal "missing protocol scheme" error
(URL starts with a colon); otherwise the scheme (possibly empty) and the
rest. -/
def getScheme (l : List Char) : Option (List Char × List Char) :=
  match l with
  | [] => some ([], [])
  | c :: _ =>
      if c = ':' then none
      else if ¬ isAlphaCh c then some ([], l)
      else
        match schemeScan [] l with
        | some r => some r
        | none => some ([], l)

/-- The parsed-URL shape of Go's `url.URL` that this service reads:
`host` is `u.Host` (it may still carry a port), `opq` is `u.Opaque`. -/
structure GoURL where
  scheme : String
  opq : String
  userinfo : Option String
  host : String
  path : String
  rawQuery : String
  fragment : String
deriving DecidableEq

/-- Models `net/url.Parse`. `none` models a parse error. -/
def urlParse (raw : String) : Option GoURL :=
  let l := raw.data
  if l.any (fun c => c.toNat < 32 || c.toNat = 127) then none
  else
    let fcut := cutFirst '#' l
    match getScheme fcut.1 with
    | none => none
    | some sr =>
        let scheme := sr.1.map lowerCh
        let qcut := cutFirst '?' sr.2
        let rest := qcut.1
        let mk := fun (ui : Option (List Char)) (host path : List Char) (opq : List Char) =>
          some { scheme := String.mk scheme, opq := String.mk opq,
                 userinfo := ui.map String.mk, host := String.mk host,
                 path := String.mk path, rawQuery := String.mk qcut.2,
                 fragment := String.mk fcut.2 : GoURL }
        if rest.head? ≠ some '/' ∧ scheme ≠ [] then
          mk none [] [] rest
        else if rest.head? ≠ some '/' ∧ (cutFirst '/' rest).1.contains ':' then
          none
        else if (scheme ≠ [] ∨ ¬ isPre "///".data rest) ∧ isPre "//".data rest then
          let acut := splitFirstKeep '/' (rest.drop 2)
          let ur := splitLastUser acut.1
          if ur.2.head? = some '[' then none
          else
            match splitLastColon ur.2 with
            | some pr =>
                if pr.2.all isDigitCh then mk ur.1 ur.2 acut.2 []
                else none
            | none => mk ur.1 ur.2 acut.2 []
        else
          mk none [] rest []

/-- Go's `url.URL.Hostname()`: the host with any valid `:port` suffix
stripped. -/
def hostnameStr (host : String) : String :=
  match splitLastColon host.data with
  | some pr => if pr.2.all isDigitCh then String.mk pr.1 else host
  | none => host

/-- The error cases of `utils.CleanHost`. -/
inductive HostError
  | missingHost
  | parseFail
deriving DecidableEq

/-- `utils.CleanHost`: trim whitespace, demand non-empty, default the scheme
to `https` when no `://` is present, parse, and return the hostname. -/
def cleanHost (raw : String) : Except HostError String :=
  let r := trimSpace raw
  if r = "" then .error .missingHost
  else
    let r2 := if containsSeq "://".data r.data then r else "https://" ++ r
    match urlParse r2 with
    | none => .error .parseFail
    | some u => .ok (hostnameStr u.host)

/-- `utils.IsURL`: parse succeeds and both scheme and host are non-empty. -/
def isURL (s : String) : Bool :=
  match urlParse s with
  | none => false
  | some u => u.scheme ≠ "" && u.host ≠ ""

/-- `utils.IsDomainAllowed`: the link's lower-cased hostname equals some
trimmed, lower-cased allow-list entry. -/
def isDomainAllowed (allowList : List String) (rawLink : String) : Bool :=
  match urlParse rawLink with
  | none => false
  | some u =>
      let host := strToLower (hostnameStr u.host)
      allowList.any fun allowed => host = strToLower (trimSpace allowed)

/-- `service.removePreviewFromHost`: strip a literal `preview.` prefix, or
strip a `-preview` suffix from the first dot-separated label. -/
def removePreviewFromHost (host : String) : String :=
  if strHasPre "preview." host then String.mk (host.data.drop 8)
  else
    let pcut := cutFirst '.' host.data
    if host.data.contains '.' && strHasSuf "-preview".data pcut.1 then
      String.mk (dropSuf "-preview".data pcut.1) ++ "." ++ String.mk pcut.2
    else host

/-- The 62-symbol alphabet of `generateDurableLinkPath`. -/
def alphanumeric : List Char :=
  "abcdefghijklmnopqrstuvwxyzABCDEFGHIJKLMNOPQRSTUVWXYZ0123456789".data

/-- `service.generateDurableLinkPath`: maps each of the `length` random
bytes (passed in explicitly, modelling `crypto/rand.Read`) through the
alphanumeric alphabet by reduction mod 62. -/
def generateDurableLinkPath (length : Nat) (randBytes : List Nat) : String :=
  String.mk ((randBytes.take length).map fun b => (alphanumeric.getD (b % 256 % 62) 'a'))

/-- `strings.Trim(s, "/")` for a single trim character. -/
def trimChar (c : Char) (l : List Char) : List Char :=
  ((l.dropWhile (· = c)).reverse.dropWhile (· = c)).reverse

/-- `strings.Split` on a single separator character: always at least one
piece. -/
def splitChar (sep : Char) : List Char → List (List Char)
  | [] => [[]]
  | c :: cs =>
      if c = sep then [] :: splitChar sep cs
      else
        match splitChar sep cs with
        | [] => [[c]]
        | p :: ps => (c :: p) :: ps

/-! The structured-variant service (`service/linkservice.go`, first
implementation) over the structured repository (`part_005`). The store is
the list of rows in insertion order; the repository's not-found signal is
`none`. -/

structure Warning where
  warningCode : String
  warningMessage : String
deriving DecidableEq

structure Suffix where
  option : String
deriving DecidableEq

structure CreateDurableLinkRequest where
  durableLinkInfo : DurableLink
  suffix : Suffix
deriving DecidableEq

structure ShortLinkResponse where
  shortLink : String
  warnings : List Warning
deriving DecidableEq

structure LongLinkResponse where
  longLink : String
deriving DecidableEq

structure TenantConfig where
  urlScheme : String
  domainAllowList : List String
  shortPathLength : Nat
  unguessablePathLength : Nat
  defaultIOSAppStoreId : Option Int
  defaultAndroidPackage : Option String
deriving DecidableEq

/-- `models.DurableLinkDB.ToDurableLink`. -/
def ToDurableLink (db : DurableLinkDB) : DurableLink :=
  { host := db.host
    link := db.link
    androidParameters :=
      { androidPackageName := db.androidPackageName
        androidFallbackLink := db.androidFallbackLink
        androidMinPackageVersionCode := db.androidMinVersion }
    iosParameters :=
      { iosFallbackLink := db.iosFallbackLink
        iosIpadFallbackLink := db.iosIpadFallbackLink
        iosAppStoreId := db.iosAppStoreID }
    otherPlatformParameters := { fallbackURL := db.otherFallbackURL }
    socialMetaTagInfo :=
      { socialTitle := db.socialTitle
        socialDescription := db.socialDescription
        socialImageLink := db.socialImageLink }
    analyticsInfo :=
      { marketingParameters :=
          { utmSource := db.utmSource
            utmMedium := db.utmMedium
            utmCampaign := db.utmCampaign
            utmTerm := db.utmTerm
            utmContent := db.utmContent }
        itunesConnectAnalytics :=
          { pt := db.itunesPt
            atv := db.itunesAt
            ct := db.itunesCt
            mt := db.itunesMt } } }

/-- The structured store: rows in insertion order. -/
abbrev Store := List DurableLinkDB

/-- The `WHERE` clause of the structured repository's
`FindExistingShortLink` (`part_005`): host, link, params hash, short path
only, and the project filter (`project_id = $4` or `project_id IS NULL`). -/
def rowMatchesFind (host link hash : String) (projectID : Option String)
    (row : DurableLinkDB) : Bool :=
  row.host = host && row.link = link && row.paramsHash = hash &&
  row.isUnguessablePath = false &&
  (match projectID with
   | some pid => row.projectID = some pid
   | none => row.projectID = none)

/-- The structured repository's `FindExistingShortLink`: recompute the
params hash from the request's parameters and return the first matching
short-path row, if any. `none` is the not-found signal of the storage
gateway (`sql.ErrNoRows` / `gorm.ErrRecordNotFound`). -/
def FindExistingShortLink (store : Store) (host : String) (link : DurableLink)
    (projectID : Option String) : Option String :=
  let dbLink := FromDurableLink link "" "" false none
  let paramsHash := ComputeParamsHash dbLink
  (store.find? (rowMatchesFind host link.link paramsHash projectID)).map (·.path)

/-- The `WHERE` clause of the structured repository's
`GetLinkByHostAndPath`: host and path, plus the project filter only when a
project id is given. -/
def rowMatchesGet (host path : String) (projectID : Option String)
    (row : DurableLinkDB) : Bool :=
  row.host = host && row.path = path &&
  (match projectID with
   | some pid => row.projectID = some pid
   | none => true)

/-- The structured repository's `GetLinkByHostAndPath`. -/
def GetLinkByHostAndPath (store : Store) (host path : String)
    (projectID : Option String) : Option DurableLink :=
  (store.find? (rowMatchesGet host path projectID)).map ToDurableLink

/-- `service.validateSuffixOption` (structured variant): case-insensitive
match, warning and UNGUESSABLE behavior on anything else. -/
def validateSuffixOption (suffix : Suffix) : Bool × Option Warning :=
  let option := strToUpper suffix.option
  if option ≠ "SHORT" ∧ option ≠ "UNGUESSABLE" then
    (false,
     some { warningCode := "INVALID_SUFFIX_OPTION",
            warningMessage := "Param \x27suffix.option\x27 must be \x27SHORT\x27 or \x27UNGUESSABLE\x27. Received \x27" ++
              suffix.option ++ "\x27, defaulting to \x27UNGUESSABLE\x27." })
  else if option = "UNGUESSABLE" then (false, none)
  else (true, none)

def malformedWarning (jsonFieldName : String) : Warning :=
  { warningCode := "MALFORMED_PARAM",
    warningMessage := "Param \x27" ++ jsonFieldName ++ "\x27 is not a valid URL" }

/-- The guard of `validateAndClearInvalidURL`: present, non-empty, and not a
well-formed URL. -/
def badURLOpt : Option String → Bool
  | none => false
  | some v => v ≠ "" && !(isURL v)

/-- One `validateAndClearInvalidURL` step: clear the field and warn when the
guard fires. -/
def clearStep (v : Option String) (name : String) : Option String × List Warning :=
  if badURLOpt v then (none, [malformedWarning name]) else (v, [])

/-- The five `validateAndClearInvalidURL` calls of `validateLinkParameters`,
in source order. -/
def validateAndClearAll (dl : DurableLink) : DurableLink × List Warning :=
  let s1 := clearStep dl.androidParameters.androidFallbackLink "androidFallbackLink"
  let s2 := clearStep dl.iosParameters.iosFallbackLink "iosFallbackLink"
  let s3 := clearStep dl.iosParameters.iosIpadFallbackLink "iosIpadFallbackLink"
  let s4 := clearStep dl.otherPlatformParameters.fallbackURL "fallbackUrl"
  let s5 := clearStep dl.socialMetaTagInfo.socialImageLink "socialImageLink"
  ({ dl with
      androidParameters := { dl.androidParameters with androidFallbackLink := s1.1 }
      iosParameters := { dl.iosParameters with
        iosFallbackLink := s2.1, iosIpadFallbackLink := s3.1 }
      otherPlatformParameters := { fallbackURL := s4.1 }
      socialMetaTagInfo := { dl.socialMetaTagInfo with socialImageLink := s5.1 } },
   s1.2 ++ s2.2 ++ s3.2 ++ s4.2 ++ s5.2)

def unrecognizedWarning (paramName missingParam : String) : Warning :=
  { warningCode := "UNRECOGNIZED_PARAM",
    warningMessage := "Param \x27" ++ paramName ++ "\x27 is not needed, since \x27" ++
      missingParam ++ "\x27 is not specified." }

/-- The guard of `addUnrecognizedWarning`: pointer non-nil and non-empty. -/
def presentStr : Option String → Bool
  | none => false
  | some v => v ≠ ""

def unrecognizedIf (v : Option String) (paramName missingParam : String) : List Warning :=
  if presentStr v then [unrecognizedWarning paramName missingParam] else []

/-- The two iTunes cross-field blocks of `validateLinkParameters`
(`service/linkservice.go`, lines 165-182). -/
def itunesWarnings (dl : DurableLink) : List Warning :=
  let isi := dl.iosParameters.iosAppStoreId
  let itunes := dl.analyticsInfo.itunesConnectAnalytics
  let pt := itunes.pt
  (if isi = none then
      unrecognizedIf itunes.atv "at" "isi" ++ unrecognizedIf itunes.ct "ct" "isi" ++
      unrecognizedIf itunes.mt "mt" "isi" ++ unrecognizedIf pt "pt" "isi"
   else []) ++
  (if pt = none ∨ pt = some "" then
      unrecognizedIf itunes.atv "at" "pt" ++ unrecognizedIf itunes.ct "ct" "pt" ++
      unrecognizedIf itunes.mt "mt" "pt"
   else [])

/-- `service.validateLinkParameters` (structured variant): clear malformed
URLs, then the iTunes cross-field checks; warnings in source order. -/
def validateLinkParameters (dl : DurableLink) : DurableLink × List Warning :=
  let r := validateAndClearAll dl
  (r.1, r.2 ++ itunesWarnings r.1)

def fullLink (scheme host path : String) : String :=
  scheme ++ "://" ++ host ++ "/" ++ path

/-- `service.createOrGetShortLink` (structured variant): reuse lookup only
for short paths; otherwise generate and insert. -/
def createOrGetShortLink (store : Store) (host : String) (link : DurableLink)
    (shortPath : Bool) (projectID : Option String) (cfg : TenantConfig)
    (randBytes : List Nat) : ShortLinkResponse × Store :=
  let reuse := if shortPath then FindExistingShortLink store host link projectID else none
  match reuse with
  | some path =>
      ({ shortLink := fullLink cfg.urlScheme host path, warnings := [] }, store)
  | none =>
      let length := if shortPath then cfg.shortPathLength else cfg.unguessablePathLength
      let path := generateDurableLinkPath length randBytes
      let dbLink := FromDurableLink link host path (!shortPath) projectID
      ({ shortLink := fullLink cfg.urlScheme host path, warnings := [] },
       store ++ [dbLink])

inductive CreateError
  | invalidHost (e : HostError)
  | domainNotAllowed
deriving DecidableEq

/-- The pure normalization prefix of the structured `CreateDurableLink`
(`service/linkservice.go`, lines 86-111): tenant defaults with their
warnings, then `validateLinkParameters`, then `validateSuffixOption`.
Returns the normalized parameters, `wantsShortPath`, and the warnings in
accumulation order. -/
def applyDefaults (params : CreateDurableLinkRequest) (cfg : TenantConfig) :
    DurableLink × List Warning :=
  let d1 : DurableLink × List Warning :=
    match params.durableLinkInfo.iosParameters.iosAppStoreId,
          cfg.defaultIOSAppStoreId with
    | none, some dflt =>
        ({ params.durableLinkInfo with iosParameters :=
            { params.durableLinkInfo.iosParameters with iosAppStoreId := some dflt } },
         [{ warningCode := "DEFAULT_APPLIED",
            warningMessage := "Using default iOS App Store ID: " ++ intDec dflt }])
    | _, _ => (params.durableLinkInfo, ([] : List Warning))
  match d1.1.androidParameters.androidPackageName, cfg.defaultAndroidPackage with
  | none, some pkg =>
      ({ d1.1 with androidParameters :=
          { d1.1.androidParameters with androidPackageName := some pkg } },
       d1.2 ++ [{ warningCode := "DEFAULT_APPLIED",
                  warningMessage := "Using default Android package name: " ++ pkg }])
  | _, _ => (d1.1, d1.2)

def normalizeCreate (params : CreateDurableLinkRequest) (cfg : TenantConfig) :
    DurableLink × Bool × List Warning :=
  let d2 := applyDefaults params cfg
  let v := validateLinkParameters d2.1
  let so := validateSuffixOption params.suffix
  let warnings :=
    match so.2 with
    | some w => d2.2 ++ v.2 ++ [w]
    | none => d2.2 ++ v.2
  (v.1, so.1, warnings)

/-- `service.CreateDurableLink` (structured variant): clean host, allow-list
check, normalization (defaults, validation, suffix), then create-or-reuse;
the accumulated warnings are attached to the response. -/
def CreateDurableLink (store : Store) (params : CreateDurableLinkRequest)
    (projectID : Option String) (cfg : TenantConfig) (randBytes : List Nat) :
    Except CreateError (ShortLinkResponse × Store) :=
  match cleanHost params.durableLinkInfo.host with
  | .error e => .error (.invalidHost e)
  | .ok host =>
      if ¬ isDomainAllowed cfg.domainAllowList params.durableLinkInfo.link then
        .error .domainNotAllowed
      else
        let n := normalizeCreate params cfg
        let r := createOrGetShortLink store host n.1 n.2.1 projectID cfg randBytes
        .ok ({ r.1 with warnings := n.2.2 }, r.2)

inductive ResolveError
  | invalidRequestedLink
  | invalidPathFormat
  | linkNotFound
deriving DecidableEq

/-- `service.getLongLinkFromHostAndPath` (structured variant). -/
def getLongLinkFromHostAndPath (store : Store) (host path : String)
    (projectID : Option String) : Except ResolveError LongLinkResponse :=
  match GetLinkByHostAndPath store host path projectID with
  | none => .error .linkNotFound
  | some link => .ok { longLink := link.link }

/-- `service.ResolveShortPath` (structured variant): parse, de-preview the
host, require exactly one non-empty path segment, then look the link up. -/
def ResolveShortPath (store : Store) (rawURL : String)
    (projectID : Option String) : Except ResolveError LongLinkResponse :=
  match urlParse rawURL with
  | none => .error .invalidRequestedLink
  | some u =>
      let normalizedHost := removePreviewFromHost u.host
      let pathParts := splitChar '/' (trimChar '/' u.path.data)
      if pathParts.length ≠ 1 ∨ pathParts.headD [] = [] then
        .error .invalidPathFormat
      else
        getLongLinkFromHostAndPath store normalizedHost
          (String.mk (pathParts.headD [])) projectID

/-! The flattened-variant service (`service/linkservice.go`, second
implementation) over the flattened repository
(`repository/linkrepository.go`), which stores one encoded query string per
row. Its `models.DurableLink` uses plain (non-pointer) string fields,
reconstructed from the flattened service's and its tests' field accesses. -/

structure FlatAndroidParameters where
  androidPackageName : String
  androidFallbackLink : String
  androidMinPackageVersionCode : String
deriving DecidableEq

structure FlatIOSParameters where
  iosFallbackLink : String
  iosIpadFallbackLink : String
  iosAppStoreId : String
deriving DecidableEq

structure FlatOtherPlatformParameters where
  fallbackURL : String
deriving DecidableEq

structure FlatSocialMetaTagInfo where
  socialTitle : String
  socialDescription : String
  socialImageLink : String
deriving DecidableEq

structure FlatMarketingParameters where
  utmSource : String
  utmMedium : String
  utmCampaign : String
  utmTerm : String
  utmContent : String
deriving DecidableEq

structure FlatITunesConnectAnalytics where
  pt : String
  atv : String
  ct : String
  mt : String
deriving DecidableEq

structure FlatAnalyticsInfo where
  marketingParameters : FlatMarketingParameters
  itunesConnectAnalytics : FlatITunesConnectAnalytics
deriving DecidableEq

structure FlatDurableLink where
  host : String
  link : String
  androidParameters : FlatAndroidParameters
  iosParameters : FlatIOSParameters
  otherPlatformParameters : FlatOtherPlatformParameters
  socialMetaTagInfo : FlatSocialMetaTagInfo
  analyticsInfo : FlatAnalyticsInfo
deriving DecidableEq

structure FlatCreateDurableLinkRequest where
  durableLinkInfo : FlatDurableLink
  suffix : Suffix
deriving DecidableEq

structure FlatTenantConfig where
  urlScheme : String
  domainAllowList : List String
  shortPathLength : Nat
  unguessablePathLength : Nat
deriving DecidableEq

/-- A row of the flattened schema: `(host, path, query_params,
is_unguessable_path, project_id)`. -/
structure FlatRow where
  host : String
  path : String
  queryParams : String
  isUnguessablePath : Bool
  projectID : Option String
deriving DecidableEq

def hexDigitUp (n : Nat) : Char :=
  if n < 10 then Char.ofNat (48 + n) else Char.ofNat (55 + n)

def isUnreservedQ (c : Char) : Bool :=
  isAlnumCh c || c = '-' || c = '_' || c = '.' || c = '~'

/-- One character of `url.QueryEscape`: unreserved kept, space to `+`,
anything else percent-encoded byte-wise with uppercase hex. -/
def queryEscapeCh (c : Char) : List Char :=
  if isUnreservedQ c then [c]
  else if c = ' ' then ['+']
  else (utf8Ch c).flatMap fun b => ['%', hexDigitUp (b / 16), hexDigitUp (b % 16)]

def queryEscape (s : String) : String := String.mk (s.data.flatMap queryEscapeCh)

/-- `url.Values` keeps insertion order per key; `Add` appends. -/
abbrev Values := List (String × String)

def dedupAux (seen : List String) : List String → List String
  | [] => []
  | k :: ks =>
      if seen.contains k then dedupAux seen ks
      else k :: dedupAux (k :: seen) ks

/-- Lexicographic comparison on code points (for the ASCII keys this
service produces this is exactly Go's byte-wise string order). -/
def leCh : List Char → List Char → Bool
  | [], _ => true
  | _ :: _, [] => false
  | x :: xs, y :: ys =>
      if x.toNat < y.toNat then true
      else if y.toNat < x.toNat then false
      else leCh xs ys

def strLe (a b : String) : Bool := leCh a.data b.data

def insSorted (x : String) : List String → List String
  | [] => [x]
  | y :: ys => if strLe x y then x :: y :: ys else y :: insSorted x ys

def sortStrs : List String → List String
  | [] => []
  | x :: xs => insSorted x (sortStrs xs)

/-- `url.Values.Encode`: keys sorted, each key's values in insertion order,
escaped `k=v` pairs joined by `&`. -/
def valuesEncode (v : Values) : String :=
  let keys := sortStrs (dedupAux [] (v.map (·.1)))
  String.intercalate "&" (keys.flatMap fun k =>
    (v.filter (·.1 == k)).map fun p => queryEscape k ++ "=" ++ queryEscape p.2)

/-- `strconv.ParseUint(s, 10, 64)` succeeds: non-empty, all digits, below
`2^64`. -/
def isUint64Str (s : String) : Bool :=
  s ≠ "" && s.data.all isDigitCh &&
  s.data.foldl (fun acc c => 10 * acc + (c.toNat - 48)) 0 < 18446744073709551616

/-- The flattened repository's `GetQueryParamsByHostAndPath`: host and path,
project filter only when a project id is given; `none` is `ErrLinkNotFound`. -/
def flatGetQueryParams (store : List FlatRow) (host path : String)
    (projectID : Option String) : Option String :=
  (store.find? fun row =>
      row.host = host && row.path = path &&
      (match projectID with
       | some pid => row.projectID = some pid
       | none => true)).map (·.queryParams)

/-- The flattened repository's `FindExistingShortLink`: host and encoded
query string, short-path rows only, project filter only when given. -/
def flatFindExistingShortLink (store : List FlatRow) (host rawQS : String)
    (projectID : Option String) : Option String :=
  (store.find? fun row =>
      row.host = host && row.queryParams = rawQS &&
      row.isUnguessablePath = false &&
      (match projectID with
       | some pid => row.projectID = some pid
       | none => true)).map (·.path)

/-- `service.createOrGetShortLink` (flattened variant). -/
def flatCreateOrGetShortLink (store : List FlatRow) (host : String)
    (queryParams : Values) (shortPath : Bool) (projectID : Option String)
    (cfg : FlatTenantConfig) (randBytes : List Nat) :
    ShortLinkResponse × List FlatRow :=
  let rawQS := valuesEncode queryParams
  let reuse := if shortPath then flatFindExistingShortLink store host rawQS projectID else none
  match reuse with
  | some path =>
      ({ shortLink := fullLink cfg.urlScheme host path, warnings := [] }, store)
  | none =>
      let length := if shortPath then cfg.shortPathLength else cfg.unguessablePathLength
      let path := generateDurableLinkPath length randBytes
      ({ shortLink := fullLink cfg.urlScheme host path, warnings := [] },
       store ++ [{ host := host, path := path, queryParams := rawQS,
                   isUnguessablePath := !shortPath, projectID := projectID }])

inductive FlatCreateError
  | invalidHost (e : HostError)
  | domainNotAllowed
  | invalidAppStoreID
deriving DecidableEq

/-- `addParam` of the flattened `CreateDurableLink`: add the pair only when
the value is non-empty. -/
def addP (l : Values) (k v : String) : Values :=
  if v ≠ "" then l ++ [(k, v)] else l

/-- The query-parameter list the flattened `CreateDurableLink` builds, in
its source order (`link`, `apn`, `afl`, `amv`, `ifl`, `ipfl`, `isi`,
`ofl`, `st`, `sd`, `si`, the five UTM fields, `pt`, `at`, `ct`, `mt`). -/
def flatQueryParams (info : FlatDurableLink) : Values :=
  let q1 := addP [("link", info.link)] "apn" info.androidParameters.androidPackageName
  let q2 := addP q1 "afl" info.androidParameters.androidFallbackLink
  let q3 := addP q2 "amv" info.androidParameters.androidMinPackageVersionCode
  let q4 := addP q3 "ifl" info.iosParameters.iosFallbackLink
  let q5 := addP q4 "ipfl" info.iosParameters.iosIpadFallbackLink
  let q6 := addP q5 "isi" info.iosParameters.iosAppStoreId
  let q7 := addP q6 "ofl" info.otherPlatformParameters.fallbackURL
  let q8 := addP q7 "st" info.socialMetaTagInfo.socialTitle
  let q9 := addP q8 "sd" info.socialMetaTagInfo.socialDescription
  let q10 := addP q9 "si" info.socialMetaTagInfo.socialImageLink
  let q11 := addP q10 "utm_source" info.analyticsInfo.marketingParameters.utmSource
  let q12 := addP q11 "utm_medium" info.analyticsInfo.marketingParameters.utmMedium
  let q13 := addP q12 "utm_campaign" info.analyticsInfo.marketingParameters.utmCampaign
  let q14 := addP q13 "utm_term" info.analyticsInfo.marketingParameters.utmTerm
  let q15 := addP q14 "utm_content" info.analyticsInfo.marketingParameters.utmContent
  let q16 := addP q15 "pt" info.analyticsInfo.itunesConnectAnalytics.pt
  let q17 := addP q16 "at" info.analyticsInfo.itunesConnectAnalytics.atv
  let q18 := addP q17 "ct" info.analyticsInfo.itunesConnectAnalytics.ct
  addP q18 "mt" info.analyticsInfo.itunesConnectAnalytics.mt

/-- `addUnrecognizedWarning` of the flattened variant (plain strings). -/
def flatUnrec (v paramName missingParam : String) : List Warning :=
  if v ≠ "" then [unrecognizedWarning paramName missingParam] else []

/-- The warnings the flattened `CreateDurableLink` collects, in source
order: malformed `si`, then the `isi` iTunes block, then the `pt` block. -/
def flatWarnings (info : FlatDurableLink) : List Warning :=
  let si := info.socialMetaTagInfo.socialImageLink
  let itunes := info.analyticsInfo.itunesConnectAnalytics
  let pt := itunes.pt
  let isi := info.iosParameters.iosAppStoreId
  (if si ≠ "" ∧ ¬ isURL si then
      [{ warningCode := "MALFORMED_PARAM",
         warningMessage := "Param \x27si\x27 is not a valid URL" }]
    else []) ++
  (if isi = "" then
      flatUnrec itunes.atv "at" "isi" ++ flatUnrec itunes.ct "ct" "isi" ++
      flatUnrec itunes.mt "mt" "isi" ++ flatUnrec pt "pt" "isi"
    else []) ++
  (if pt = "" then
      flatUnrec itunes.atv "at" "pt" ++ flatUnrec itunes.ct "ct" "pt" ++
      flatUnrec itunes.mt "mt" "pt"
    else [])

/-- `service.CreateDurableLink` (flattened variant): clean host, allow-list
check, numeric check on the App Store ID, build the query-parameter list in
source order, collect warnings (malformed `si`, then the two iTunes
blocks), and create or reuse. Note: the suffix option is compared
case-sensitively with `"SHORT"` and the malformed `si` value stays in the
query parameters. -/
def flatCreateDurableLink (store : List FlatRow)
    (params : FlatCreateDurableLinkRequest) (projectID : Option String)
    (cfg : FlatTenantConfig) (randBytes : List Nat) :
    Except FlatCreateError (ShortLinkResponse × List FlatRow) :=
  match cleanHost params.durableLinkInfo.host with
  | .error e => .error (.invalidHost e)
  | .ok host =>
      if ¬ isDomainAllowed cfg.domainAllowList params.durableLinkInfo.link then
        .error .domainNotAllowed
      else
        let isi := params.durableLinkInfo.iosParameters.iosAppStoreId
        if isi ≠ "" ∧ ¬ isUint64Str isi then .error .invalidAppStoreID
        else
          let shortPath := params.suffix.option = "SHORT"
          let r := flatCreateOrGetShortLink store host
            (flatQueryParams params.durableLinkInfo) shortPath projectID cfg randBytes
          .ok ({ r.1 with warnings := flatWarnings params.durableLinkInfo }, r.2)

/-- `service.getLongLinkFromHostAndPath` (flattened variant): rebuild the
long link from the tenant scheme, host, path and stored query string. -/
def flatGetLongLink (store : List FlatRow) (host path : String)
    (projectID : Option String) (cfg : FlatTenantConfig) :
    Except ResolveError LongLinkResponse :=
  match flatGetQueryParams store host path projectID with
  | none => .error .linkNotFound
  | some rawQS =>
      .ok { longLink := fullLink cfg.urlScheme host path ++
              (if rawQS ≠ "" then "?" ++ rawQS else "") }

/-- `service.ResolveShortPath` (flattened variant). Unlike the structured
variant it only rejects paths that split into more than one segment; a
single empty segment is passed through to the lookup. -/
def flatResolveShortPath (store : List FlatRow) (rawURL : String)
    (projectID : Option String) (cfg : FlatTenantConfig) :
    Except ResolveError LongLinkResponse :=
  match urlParse rawURL with
  | none => .error .invalidRequestedLink
  | some u =>
      let normalizedHost := removePreviewFromHost u.host
      let pathParts := splitChar '/' (trimChar '/' u.path.data)
      if pathParts.length ≠ 1 then .error .invalidPathFormat
      else
        flatGetLongLink store normalizedHost (String.mk (pathParts.headD []))
          projectID cfg

/-! Auxiliary definitions used by the theorem statements. -/

/-- The five optional URL fields validated by `validateLinkParameters`. -/
inductive URLField
  | afl
  | ifl
  | ipfl
  | ofl
  | si
deriving DecidableEq

/-- Read a URL field from a request's `DurableLink`. -/
def getURLField : URLField → DurableLink → Option String
  | .afl, dl => dl.androidParameters.androidFallbackLink
  | .ifl, dl => dl.iosParameters.iosFallbackLink
  | .ipfl, dl => dl.iosParameters.iosIpadFallbackLink
  | .ofl, dl => dl.otherPlatformParameters.fallbackURL
  | .si, dl => dl.socialMetaTagInfo.socialImageLink

/-- Read the corresponding column from a stored row. -/
def getRowURLField : URLField → DurableLinkDB → Option String
  | .afl, r => r.androidFallbackLink
  | .ifl, r => r.iosFallbackLink
  | .ipfl, r => r.iosIpadFallbackLink
  | .ofl, r => r.otherFallbackURL
  | .si, r => r.socialImageLink

/-- The JSON field name used in the `MALFORMED_PARAM` warning message. -/
def urlFieldName : URLField → String
  | .afl => "androidFallbackLink"
  | .ifl => "iosFallbackLink"
  | .ipfl => "iosIpadFallbackLink"
  | .ofl => "fallbackUrl"
  | .si => "socialImageLink"

/-- The three iTunes analytics sub-fields checked under both `isi` and `pt`. -/
inductive ItField
  | atF
  | ctF
  | mtF
deriving DecidableEq

def getItField : ItField → DurableLink → Option String
  | .atF, dl => dl.analyticsInfo.itunesConnectAnalytics.atv
  | .ctF, dl => dl.analyticsInfo.itunesConnectAnalytics.ct
  | .mtF, dl => dl.analyticsInfo.itunesConnectAnalytics.mt

def itFieldName : ItField → String
  | .atF => "at"
  | .ctF => "ct"
  | .mtF => "mt"

/-- Replace only the host field of a request. -/
def withHost (req : CreateDurableLinkRequest) (h : String) : CreateDurableLinkRequest :=
  { req with durableLinkInfo := { req.durableLinkInfo with host := h } }

/-- The path-shape accepted by the structured `ResolveShortPath`: exactly one
non-empty segment after trimming slashes. -/
def singleNonEmptySegment (path : String) : Bool :=
  let parts := splitChar '/' (trimChar '/' path.data)
  parts.length = 1 && parts.headD [] ≠ []

/-- Evaluation of a digit string back to a number (the inverse used to prove
decimal rendering injective). -/
def decVal (l : List Char) : Nat :=
  l.foldl (fun acc c => 10 * acc + (c.toNat - 48)) 0

/-- Character lists free of the NUL separator. -/
def noNull (s : String) : Prop := '\x00' ∉ s.data

/-- Sample empty parameter set used by several witnesses. -/
def sampleDL : DurableLink :=
  { host := "example.com"
    link := "https://example.com/target"
    androidParameters := ⟨none, none, none⟩
    iosParameters := ⟨none, none, none⟩
    otherPlatformParameters := ⟨none⟩
    socialMetaTagInfo := ⟨none, none, none⟩
    analyticsInfo := ⟨⟨none, none, none, none, none⟩, ⟨none, none, none, none⟩⟩ }

/-- Sample tenant configuration used by several witnesses. -/
def sampleCfg : TenantConfig :=
  { urlScheme := "https"
    domainAllowList := ["example.com"]
    shortPathLength := 8
    unguessablePathLength := 17
    defaultIOSAppStoreId := none
    defaultAndroidPackage := none }

/-- Sample flat parameter set used by several witnesses. -/
def sampleFDL : FlatDurableLink :=
  { host := "example.com"
    link := "https://example.com/target"
    androidParameters := ⟨"", "", ""⟩
    iosParameters := ⟨"", "", ""⟩
    otherPlatformParameters := ⟨""⟩
    socialMetaTagInfo := ⟨"", "", ""⟩
    analyticsInfo := ⟨⟨"", "", "", "", ""⟩, ⟨"", "", "", ""⟩⟩ }

def sampleFlatCfg : FlatTenantConfig :=
  { urlScheme := "https"
    domainAllowList := ["example.com"]
    shortPathLength := 8
    unguessablePathLength := 17 }

/-- An all-absent row used to build `ComputeParamsHash` examples. -/
def emptyRow : DurableLinkDB :=
  { id := 0, host := "", path := "", link := "", isUnguessablePath := false
    projectID := none
    androidPackageName := none, androidFallbackLink := none
    androidMinVersion := none, iosFallbackLink := none
    iosIpadFallbackLink := none, iosAppStoreID := none
    socialTitle := none, socialDescription := none, socialImageLink := none
    utmSource := none, utmMedium := none, utmCampaign := none
    utmTerm := none, utmContent := none
    itunesPt := none, itunesAt := none, itunesCt := none, itunesMt := none
    otherFallbackURL := none, paramsHash := ""
    createdAt := 0, updatedAt := 0 }

/-- A row whose Android package name is the literal one-byte string `0x01`:
the hash cannot tell it apart from an absent package name, because the
absent sentinel is exactly that byte. -/
def cxSentinelRow : DurableLinkDB := { emptyRow with androidPackageName := some "\x01" }

/-- A clean row with some parameters present. -/
def cxCleanRow : DurableLinkDB :=
  { emptyRow with
      host := "a.example", androidPackageName := some "com.example.app",
      utmSource := some "newsletter" }

/-- The same parameters under a different storage identity. -/
def cxCleanRow2 : DurableLinkDB :=
  { cxCleanRow with
      id := 7, host := "b.example", path := "zzz", link := "https://t.example",
      isUnguessablePath := true, projectID := some "p1",
      paramsHash := "stale", createdAt := 5, updatedAt := 9 }

instance {ε α : Type} [DecidableEq ε] [DecidableEq α] : DecidableEq (Except ε α) := fun a b =>
  match a, b with
  | .ok x, .ok y => decidable_of_iff (x = y) ⟨fun h => h ▸ rfl, fun h => Except.ok.inj h⟩
  | .error x, .error y => decidable_of_iff (x = y) ⟨fun h => h ▸ rfl, fun h => Except.error.inj h⟩
  | .ok _, .error _ => isFalse fun h => Except.noConfusion h
  | .error _, .ok _ => isFalse fun h => Except.noConfusion h

/-- Project the response out of a structured create result. -/
def respOf : Except CreateError (ShortLinkResponse × Store) → ShortLinkResponse
  | .ok (r, _) => r
  | .error _ => ⟨"", []⟩

/-- Project the store out of a structured create result. -/
def storeOf : Except CreateError (ShortLinkResponse × Store) → Store
  | .ok (_, s) => s
  | .error _ => []

/-- Project the response out of a flattened create result. -/
def flatRespOf : Except FlatCreateError (ShortLinkResponse × List FlatRow) → ShortLinkResponse
  | .ok (r, _) => r
  | .error _ => ⟨"", []⟩

/-- Project the store out of a flattened create result. -/
def flatStoreOf : Except FlatCreateError (ShortLinkResponse × List FlatRow) → List FlatRow
  | .ok (_, s) => s
  | .error _ => []

/-- A SHORT request with a malformed Android fallback link: it warns on
every call, reused or not. -/
def c2req : CreateDurableLinkRequest :=
  ⟨{ sampleDL with androidParameters := ⟨none, some "not-a-valid-url", none⟩ }, ⟨"SHORT"⟩⟩

def c2run1 : Except CreateError (ShortLinkResponse × Store) :=
  CreateDurableLink [] c2req none sampleCfg [0, 1, 2, 3, 4, 5, 6, 7]

def c2run2 : Except CreateError (ShortLinkResponse × Store) :=
  CreateDurableLink (storeOf c2run1) c2req none sampleCfg [9, 9, 9, 9, 9, 9, 9, 9]

/-- A warning-free SHORT request. -/
def c2wreq : CreateDurableLinkRequest := ⟨sampleDL, ⟨"SHORT"⟩⟩

def c2wrun1 : Except CreateError (ShortLinkResponse × Store) :=
  CreateDurableLink [] c2wreq none sampleCfg [0, 1, 2, 3, 4, 5, 6, 7]

/-- An UNGUESSABLE request. -/
def c3req : CreateDurableLinkRequest := ⟨sampleDL, ⟨"UNGUESSABLE"⟩⟩

def c3run : Except CreateError (ShortLinkResponse × Store) :=
  CreateDurableLink [] c3req none sampleCfg (List.range 17)

/-- A flattened request with a malformed social image link. -/
def c4FlatReqSi : FlatCreateDurableLinkRequest :=
  ⟨{ sampleFDL with socialMetaTagInfo := ⟨"", "", "not-a-valid-url"⟩ }, ⟨"UNGUESSABLE"⟩⟩

def c4FlatRunSi : Except FlatCreateError (ShortLinkResponse × List FlatRow) :=
  flatCreateDurableLink [] c4FlatReqSi none sampleFlatCfg (List.range 17)

/-- A flattened request with a malformed Android fallback link. -/
def c4FlatReqAfl : FlatCreateDurableLinkRequest :=
  ⟨{ sampleFDL with androidParameters := ⟨"", "not-a-valid-url", ""⟩ }, ⟨"UNGUESSABLE"⟩⟩

def c4FlatRunAfl : Except FlatCreateError (ShortLinkResponse × List FlatRow) :=
  flatCreateDurableLink [] c4FlatReqAfl none sampleFlatCfg (List.range 17)

/-- A structured request with a malformed social image link. -/
def c4req : CreateDurableLinkRequest :=
  ⟨{ sampleDL with socialMetaTagInfo := ⟨none, none, some "not-a-valid-url"⟩ },
   ⟨"UNGUESSABLE"⟩⟩

def c4run : Except CreateError (ShortLinkResponse × Store) :=
  CreateDurableLink [] c4req none sampleCfg (List.range 17)

/-- A parameter set with `at` present while both `isi` and `pt` are absent. -/
def c8dl : DurableLink :=
  { sampleDL with analyticsInfo :=
      ⟨⟨none, none, none, none, none⟩, ⟨none, some "affiliate", none, none⟩⟩ }

/-- A flattened request asking for a lowercase `short` suffix. -/
def c5FlatReq : FlatCreateDurableLinkRequest := ⟨sampleFDL, ⟨"short"⟩⟩

def c5FlatRun : Except FlatCreateError (ShortLinkResponse × List FlatRow) :=
  flatCreateDurableLink [] c5FlatReq none sampleFlatCfg (List.range 17)

/-- Characters a bare hostname may use in the C9 normalization lemmas. -/
def isHostCh (c : Char) : Bool := isAlnumCh c || c = '.' || c = '-'

/-- Trailing material (path, query-free) tolerated after the host in the C9
normalization lemmas: empty or slash-led, printable, and free of `#`, `?`. -/
def restOk (rest : List Char) : Bool :=
  (rest.isEmpty || rest.head? = some '/') &&
  rest.all fun c => 32 < c.toNat && c.toNat ≠ 127 && c ≠ '#' && c ≠ '?'

/-! Auxiliary definitions for the claims about `CleanHost` and the storage
key (C9): host-field surgery and the decorated host shapes `CleanHost`
normalizes. -/

/-- Replace only the host field of a `DurableLink`. -/
def setDLHost (dl : DurableLink) (h : String) : DurableLink := { dl with host := h }

/-- An optional explicit scheme followed by the `://` separator. -/
def schemeSepPart : Option (List Char) → List Char
  | some sch => sch ++ [':', '/', '/']
  | none => []

/-- An optional `:digits` port suffix. -/
def portPart : Option (List Char) → List Char
  | some ds => ':' :: ds
  | none => []

/-- A host string decorated with whitespace, an optional scheme, an optional
port and an optional trailing path. -/
def decorate (ws1 : List Char) (schOpt : Option (List Char)) (h : List Char)
    (pOpt : Option (List Char)) (rest ws2 : List Char) : String :=
  String.mk (ws1 ++ (schemeSepPart schOpt ++ h ++ portPart pOpt ++ rest) ++ ws2)

/-- Sample request used by the C9 witness. -/
def c9req : CreateDurableLinkRequest := ⟨sampleDL, ⟨"SHORT"⟩⟩

/-- The C9 witness creation run. -/
def c9run : Except CreateError (ShortLinkResponse × Store) :=
  CreateDurableLink [] c9req none sampleCfg (List.range 8)

/-- Fallback row used by the C9 witness. -/
def c9defRow : DurableLinkDB := FromDurableLink sampleDL "" "" false none

/-- The response and store of the C9 witness run. -/
def c9pair : ShortLinkResponse × Store :=
  match c9run with
  | .ok p => p
  | .error _ => ({ shortLink := "", warnings := [] }, [])

/-! Lemmas: decimal rendering is injective and digit-only. -/

theorem decVal_append (l : List Char) (c : Char) :
    decVal (l ++ [c]) = 10 * decVal l + (c.toNat - 48) := by
  simp [decVal, List.foldl_append]

theorem digitCh_toNat {d : Nat} (h : d < 10) : (digitCh d).toNat = 48 + d := by
  interval_cases d <;> rfl

theorem natDecCore_val : ∀ fuel n, n ≤ fuel → decVal (natDecCore fuel n) = n := by
  intro fuel
  induction fuel with
  | zero =>
      intro n h
      interval_cases n
      rfl
  | succ f ih =>
      intro n h
      by_cases h0 : n = 0
      · subst h0; simp [natDecCore, decVal]
      · have hdiv : n / 10 ≤ f := by
          have := Nat.div_lt_self (Nat.pos_of_ne_zero h0) (by norm_num : 1 < 10)
          omega
        have hm : n % 10 < 10 := Nat.mod_lt _ (by norm_num)
        simp only [natDecCore, if_neg h0]
        rw [decVal_append, ih _ hdiv, digitCh_toNat hm]
        omega

theorem natDecCore_digits : ∀ fuel n, ∀ c ∈ natDecCore fuel n,
    48 ≤ c.toNat ∧ c.toNat ≤ 57 := by
  intro fuel
  induction fuel with
  | zero => intro n c hc; simp [natDecCore] at hc
  | succ f ih =>
      intro n c hc
      by_cases h0 : n = 0
      · subst h0; simp [natDecCore] at hc
      · simp only [natDecCore, if_neg h0, List.mem_append,
          List.mem_singleton] at hc
        rcases hc with hc | hc
        · exact ih _ _ hc
        · subst hc
          have hm : n % 10 < 10 := Nat.mod_lt _ (by norm_num)
          rw [digitCh_toNat hm]
          omega

theorem natDec_val (n : Nat) : decVal (natDec n).data = n := by
  unfold natDec
  split
  · subst n; decide
  · exact natDecCore_val n n le_rfl

theorem natDec_digits {n : Nat} : ∀ c ∈ (natDec n).data,
    48 ≤ c.toNat ∧ c.toNat ≤ 57 := by
  unfold natDec
  split
  · intro c hc; simp at hc; subst hc; decide
  · exact natDecCore_digits n n

theorem natDec_inj {m n : Nat} (h : natDec m = natDec n) : m = n := by
  have hm := natDec_val m
  rw [h, natDec_val] at hm
  omega

theorem natDec_ne_nil (n : Nat) : (natDec n).data ≠ [] := by
  intro hnil
  by_cases h0 : n = 0
  · subst h0; simp [natDec] at hnil
  · have := natDec_val n
    rw [hnil] at this
    simp [decVal] at this
    omega

theorem intDec_chars {i : Int} : ∀ c ∈ (intDec i).data,
    45 ≤ c.toNat ∧ c.toNat ≤ 57 := by
  cases i with
  | ofNat m =>
      intro c hc
      have := natDec_digits (n := m) c hc
      omega
  | negSucc m =>
      intro c hc
      rw [show intDec (Int.negSucc m) = "-" ++ natDec (m + 1) from rfl] at hc
      rw [String.data_append] at hc
      rcases List.mem_append.1 hc with hc | hc
      · simp at hc; subst hc; decide
      · have := natDec_digits (n := m + 1) c hc
        omega

theorem intDec_ne_sentinel (i : Int) : intDec i ≠ "\x01" := by
  intro h
  have hmem : '\x01' ∈ (intDec i).data := by
    rw [h]; simp
  have := intDec_chars '\x01' hmem
  simp at this

theorem natDec_ne_neg (m k : Nat) : natDec m ≠ "-" ++ natDec k := by
  intro h
  have hd := congrArg String.data h
  rw [String.data_append] at hd
  have hneg : '-' ∈ (natDec m).data := by
    rw [hd]
    exact List.mem_append.2 (Or.inl (by decide))
  have := natDec_digits (n := m) '-' hneg
  revert this
  decide

theorem intDec_inj {i j : Int} (h : intDec i = intDec j) : i = j := by
  cases i with
  | ofNat m =>
      cases j with
      | ofNat k => exact congrArg Int.ofNat (natDec_inj h)
      | negSucc k => exact absurd h (natDec_ne_neg m (k + 1))
  | negSucc m =>
      cases j with
      | ofNat k => exact absurd h.symm (natDec_ne_neg k (m + 1))
      | negSucc k =>
          have hd := congrArg String.data h
          rw [show intDec (Int.negSucc m) = "-" ++ natDec (m + 1) from rfl,
            show intDec (Int.negSucc k) = "-" ++ natDec (k + 1) from rfl,
            String.data_append, String.data_append] at hd
          have htail := List.append_cancel_left hd
          have hmk : m = k := by
            have := natDec_inj (String.ext htail)
            omega
          rw [hmk]

/-! Lemmas: the sentinel encoding of optional fields is injective on clean
values, and the NUL-join of clean parts is injective. -/

theorem int64PtrToString_inj {a b : Option Int}
    (h : int64PtrToString a = int64PtrToString b) : a = b := by
  cases a with
  | none =>
      cases b with
      | none => rfl
      | some j => exact absurd h.symm (intDec_ne_sentinel j)
  | some i =>
      cases b with
      | none => exact absurd h (intDec_ne_sentinel i)
      | some j => exact congrArg some (intDec_inj h)

theorem int64PtrToString_noNull (a : Option Int) : noNull (int64PtrToString a) := by
  cases a with
  | none => unfold noNull; decide
  | some i =>
      intro hmem
      have := intDec_chars '\x00' hmem
      revert this
      decide

theorem stringPtrOrEmpty_inj {a b : Option String}
    (ha : cleanOpt a = true) (hb : cleanOpt b = true)
    (h : stringPtrOrEmpty a = stringPtrOrEmpty b) : a = b := by
  cases a with
  | none =>
      cases b with
      | none => rfl
      | some t =>
          exfalso
          have ht : t = "\x01" := h.symm
          subst ht
          simp [cleanOpt] at hb
  | some s =>
      cases b with
      | none =>
          exfalso
          have hs : s = "\x01" := h
          subst hs
          simp [cleanOpt] at ha
      | some t => exact congrArg some h

theorem stringPtrOrEmpty_noNull {a : Option String}
    (ha : cleanOpt a = true) : noNull (stringPtrOrEmpty a) := by
  cases a with
  | none => unfold noNull; decide
  | some s =>
      intro hmem
      simp [cleanOpt, List.all_eq_true] at ha
      have := ha '\x00' hmem
      simp at this

theorem append_cons_inj {x : Char} : ∀ (a b r1 r2 : List Char), x ∉ a → x ∉ b →
    a ++ x :: r1 = b ++ x :: r2 → a = b ∧ r1 = r2 := by
  intro a
  induction a with
  | nil =>
      intro b r1 r2 _ hb h
      cases b with
      | nil => simpa using h
      | cons c cs =>
          exfalso
          simp at h
          exact hb (by simp [h.1])
  | cons c cs ih =>
      intro b r1 r2 ha hb h
      cases b with
      | nil =>
          exfalso
          simp at h
          exact ha (by simp [h.1])
      | cons d ds =>
          simp at h
          obtain ⟨hcd, hrest⟩ := h
          have := ih ds r1 r2 (fun hx => ha (List.mem_cons_of_mem _ hx))
            (fun hx => hb (List.mem_cons_of_mem _ hx)) hrest
          exact ⟨by rw [hcd, this.1], this.2⟩

theorem sepJoin_data_cons (p q : String) (ps : List String) :
    (sepJoin (p :: q :: ps)).data = p.data ++ '\x00' :: (sepJoin (q :: ps)).data := by
  show (p ++ "\x00" ++ sepJoin (q :: ps)).data = _
  rw [String.data_append, String.data_append, List.append_assoc]
  rfl

theorem sepJoin_inj (l1 : List String) : ∀ l2, l1.length = l2.length →
    (∀ s ∈ l1, noNull s) → (∀ s ∈ l2, noNull s) →
    sepJoin l1 = sepJoin l2 → l1 = l2 := by
  induction l1 with
  | nil =>
      intro l2 hlen _ _ _
      cases l2 with
      | nil => rfl
      | cons p ps => simp at hlen
  | cons p ps ih =>
      intro l2 hlen h1 h2 hj
      cases l2 with
      | nil => simp at hlen
      | cons p' ps' =>
          cases ps with
          | nil =>
              cases ps' with
              | nil =>
                  have : p = p' := hj
                  rw [this]
              | cons q' qs' => simp at hlen
          | cons q qs =>
              cases ps' with
              | nil => simp at hlen
              | cons q' qs' =>
                  have hd := congrArg String.data hj
                  rw [sepJoin_data_cons, sepJoin_data_cons] at hd
                  have hp : '\x00' ∉ p.data := h1 p (by simp)
                  have hp' : '\x00' ∉ p'.data := h2 p' (by simp)
                  obtain ⟨e1, e2⟩ := append_cons_inj _ _ _ _ hp hp' hd
                  have ep : p = p' := String.ext e1
                  have et : sepJoin (q :: qs) = sepJoin (q' :: qs') := String.ext e2
                  have htl := ih (q' :: qs') (by simpa using hlen)
                    (fun s hs => h1 s (List.mem_cons_of_mem _ hs))
                    (fun s hs => h2 s (List.mem_cons_of_mem _ hs)) et
                  rw [ep, htl]

/-! Lemmas about `paramsParts` and `combinedParams`, and the claims about
`ComputeParamsHash`. -/

theorem combined_congr {r1 r2 : DurableLinkDB} (h : optionalParamsEq r1 r2) :
    combinedParams r1 = combinedParams r2 := by
  obtain ⟨e1, e2, e3, e4, e5, e6, e7, e8, e9, e10, e11, e12, e13, e14, e15,
    e16, e17, e18, e19⟩ := h
  unfold combinedParams paramsParts
  rw [e1, e2, e3, e4, e5, e6, e7, e8, e9, e10, e11, e12, e13, e14, e15, e16,
    e17, e18, e19]

theorem hash_congr_optional {r1 r2 : DurableLinkDB} (h : optionalParamsEq r1 r2) :
    ComputeParamsHash r1 = ComputeParamsHash r2 := by
  show sha256Hex (combinedParams r1) = sha256Hex (combinedParams r2)
  exact congrArg sha256Hex (combined_congr h)

theorem paramsParts_noNull {r : DurableLinkDB} (h : paramsClean r = true) :
    ∀ s ∈ paramsParts r, noNull s := by
  simp only [paramsClean, Bool.and_eq_true] at h
  obtain ⟨⟨⟨⟨⟨⟨⟨⟨⟨⟨⟨⟨⟨⟨⟨⟨⟨h1, h2⟩, h3⟩, h4⟩, h5⟩, h6⟩, h7⟩, h8⟩, h9⟩, h10⟩,
    h11⟩, h12⟩, h13⟩, h14⟩, h15⟩, h16⟩, h17⟩, h18⟩ := h
  intro s hs
  simp only [paramsParts, List.mem_cons, List.not_mem_nil, or_false] at hs
  rcases hs with rfl|rfl|rfl|rfl|rfl|rfl|rfl|rfl|rfl|rfl|rfl|rfl|rfl|rfl|rfl|rfl|rfl|rfl|rfl
  · exact stringPtrOrEmpty_noNull h1
  · exact stringPtrOrEmpty_noNull h2
  · exact stringPtrOrEmpty_noNull h3
  · exact stringPtrOrEmpty_noNull h4
  · exact stringPtrOrEmpty_noNull h5
  · exact int64PtrToString_noNull _
  · exact stringPtrOrEmpty_noNull h6
  · exact stringPtrOrEmpty_noNull h7
  · exact stringPtrOrEmpty_noNull h8
  · exact stringPtrOrEmpty_noNull h9
  · exact stringPtrOrEmpty_noNull h10
  · exact stringPtrOrEmpty_noNull h11
  · exact stringPtrOrEmpty_noNull h12
  · exact stringPtrOrEmpty_noNull h13
  · exact stringPtrOrEmpty_noNull h14
  · exact stringPtrOrEmpty_noNull h15
  · exact stringPtrOrEmpty_noNull h16
  · exact stringPtrOrEmpty_noNull h17
  · exact stringPtrOrEmpty_noNull h18

theorem paramsParts_inj {r1 r2 : DurableLinkDB} (hc1 : paramsClean r1 = true)
    (hc2 : paramsClean r2 = true) (h : paramsParts r1 = paramsParts r2) :
    optionalParamsEq r1 r2 := by
  simp only [paramsParts, List.cons.injEq, and_true] at h
  obtain ⟨e1, e2, e3, e4, e5, e6, e7, e8, e9, e10, e11, e12, e13, e14, e15,
    e16, e17, e18, e19⟩ := h
  simp only [paramsClean, Bool.and_eq_true] at hc1 hc2
  obtain ⟨⟨⟨⟨⟨⟨⟨⟨⟨⟨⟨⟨⟨⟨⟨⟨⟨a1, a2⟩, a3⟩, a4⟩, a5⟩, a6⟩, a7⟩, a8⟩, a9⟩, a10⟩,
    a11⟩, a12⟩, a13⟩, a14⟩, a15⟩, a16⟩, a17⟩, a18⟩ := hc1
  obtain ⟨⟨⟨⟨⟨⟨⟨⟨⟨⟨⟨⟨⟨⟨⟨⟨⟨b1, b2⟩, b3⟩, b4⟩, b5⟩, b6⟩, b7⟩, b8⟩, b9⟩, b10⟩,
    b11⟩, b12⟩, b13⟩, b14⟩, b15⟩, b16⟩, b17⟩, b18⟩ := hc2
  exact ⟨stringPtrOrEmpty_inj a1 b1 e1, stringPtrOrEmpty_inj a2 b2 e2,
    stringPtrOrEmpty_inj a3 b3 e3, stringPtrOrEmpty_inj a4 b4 e4,
    stringPtrOrEmpty_inj a5 b5 e5, int64PtrToString_inj e6,
    stringPtrOrEmpty_inj a6 b6 e7, stringPtrOrEmpty_inj a7 b7 e8,
    stringPtrOrEmpty_inj a8 b8 e9, stringPtrOrEmpty_inj a9 b9 e10,
    stringPtrOrEmpty_inj a10 b10 e11, stringPtrOrEmpty_inj a11 b11 e12,
    stringPtrOrEmpty_inj a12 b12 e13, stringPtrOrEmpty_inj a13 b13 e14,
    stringPtrOrEmpty_inj a14 b14 e15, stringPtrOrEmpty_inj a15 b15 e16,
    stringPtrOrEmpty_inj a16 b16 e17, stringPtrOrEmpty_inj a17 b17 e18,
    stringPtrOrEmpty_inj a18 b18 e19⟩

theorem combined_eq_iff {r1 r2 : DurableLinkDB} (hc1 : paramsClean r1 = true)
    (hc2 : paramsClean r2 = true) :
    (combinedParams r1 = combinedParams r2 ↔ optionalParamsEq r1 r2) := by
  constructor
  · intro h
    refine paramsParts_inj hc1 hc2 ?_
    exact sepJoin_inj _ _ rfl (paramsParts_noNull hc1) (paramsParts_noNull hc2) h
  · exact combined_congr

/-- C1 counterexample: two optional-parameter records that differ (one has
`androidPackageName` present with value `"\x01"`, the other has it absent)
but get the same `ComputeParamsHash`, refuting the claimed "if and only
if". -/
theorem C1_counterexample_hash_iff :
    ComputeParamsHash cxSentinelRow = ComputeParamsHash emptyRow ∧
    cxSentinelRow.androidPackageName ≠ emptyRow.androidPackageName := by
  constructor
  · show sha256Hex (combinedParams cxSentinelRow) = sha256Hex (combinedParams emptyRow)
    exact congrArg sha256Hex (by decide)
  · decide

/-- C1 (amended): matching optional fields always give equal hashes; and for
records whose present string fields contain neither the separator byte 0x00
nor the sentinel byte 0x01, the canonical serializations that
`ComputeParamsHash` digests are equal exactly when every optional field
matches (absent still distinct from empty string). -/
theorem C1_hash_iff_amended (r1 r2 : DurableLinkDB) :
    (optionalParamsEq r1 r2 → ComputeParamsHash r1 = ComputeParamsHash r2) ∧
    (paramsClean r1 = true → paramsClean r2 = true →
      (combinedParams r1 = combinedParams r2 ↔ optionalParamsEq r1 r2)) :=
  ⟨hash_congr_optional, combined_eq_iff⟩

/-- Witness for the amended C1 at concrete clean records. -/
theorem C1_hash_iff_amended_witness :
    ComputeParamsHash cxCleanRow = ComputeParamsHash cxCleanRow2 ∧
    (combinedParams cxCleanRow = combinedParams cxCleanRow2 ↔
      optionalParamsEq cxCleanRow cxCleanRow2) :=
  ⟨(C1_hash_iff_amended cxCleanRow cxCleanRow2).1 (by decide),
   (C1_hash_iff_amended cxCleanRow cxCleanRow2).2 (by decide) (by decide)⟩

/-- C7: `ComputeParamsHash` reads only the 19 optional parameter fields —
any two rows agreeing on them, however much they differ in host, path,
target link, id, project id, unguessable flag, stored hash or timestamps,
hash identically. -/
theorem C7_hash_ignores_identity_fields (r1 r2 : DurableLinkDB)
    (h : optionalParamsEq r1 r2) : ComputeParamsHash r1 = ComputeParamsHash r2 :=
  hash_congr_optional h

/-- Witness for C7: the two sample rows differ in every identity field yet
hash equally. -/
theorem C7_hash_ignores_identity_fields_witness :
    ComputeParamsHash cxCleanRow = ComputeParamsHash cxCleanRow2 ∧
    cxCleanRow.host ≠ cxCleanRow2.host :=
  ⟨C7_hash_ignores_identity_fields cxCleanRow cxCleanRow2 (by decide), by decide⟩

/-! Lemmas about the structured repository and `createOrGetShortLink`. -/

theorem fromDL_host (dl : DurableLink) (h p : String) (u : Bool) (pid : Option String) :
    (FromDurableLink dl h p u pid).host = h := rfl

theorem fromDL_path (dl : DurableLink) (h p : String) (u : Bool) (pid : Option String) :
    (FromDurableLink dl h p u pid).path = p := rfl

theorem fromDL_link (dl : DurableLink) (h p : String) (u : Bool) (pid : Option String) :
    (FromDurableLink dl h p u pid).link = dl.link := rfl

theorem fromDL_unguessable (dl : DurableLink) (h p : String) (u : Bool) (pid : Option String) :
    (FromDurableLink dl h p u pid).isUnguessablePath = u := rfl

theorem fromDL_pid (dl : DurableLink) (h p : String) (u : Bool) (pid : Option String) :
    (FromDurableLink dl h p u pid).projectID = pid := rfl

/-- The stored hash of a row built by `FromDurableLink` coincides with the
hash the reuse query recomputes from the same parameters: both read only
the optional fields. -/
theorem fromDL_hash (dl : DurableLink) (h p : String) (u : Bool) (pid : Option String) :
    (FromDurableLink dl h p u pid).paramsHash =
      ComputeParamsHash (FromDurableLink dl "" "" false none) := rfl

/-- A freshly inserted short-path row satisfies the reuse query for the same
host and parameters. -/
theorem newRow_matches (link : DurableLink) (host p : String) (pid : Option String) :
    rowMatchesFind host link.link
      (ComputeParamsHash (FromDurableLink link "" "" false none)) pid
      (FromDurableLink link host p false pid) = true := by
  unfold rowMatchesFind
  cases pid <;>
    simp [fromDL_host, fromDL_link, fromDL_unguessable, fromDL_pid, fromDL_hash]

theorem findExisting_append_self {store : Store} {host : String} {link : DurableLink}
    {pid : Option String} {p : String}
    (h : FindExistingShortLink store host link pid = none) :
    FindExistingShortLink (store ++ [FromDurableLink link host p false pid])
      host link pid = some p := by
  simp only [FindExistingShortLink] at h ⊢
  rw [List.find?_append]
  rw [Option.map_eq_none'] at h
  rw [h]
  simp [List.find?, newRow_matches, fromDL_path]

theorem validateSuffix_short {s : Suffix} (h : strToUpper s.option = "SHORT") :
    validateSuffixOption s = (true, none) := by
  simp [validateSuffixOption, h]

theorem createOrGet_short_found {store : Store} {host : String} {link : DurableLink}
    {pid : Option String} {cfg : TenantConfig} {rand : List Nat} {p : String}
    (h : FindExistingShortLink store host link pid = some p) :
    createOrGetShortLink store host link true pid cfg rand =
      ({ shortLink := fullLink cfg.urlScheme host p, warnings := [] }, store) := by
  simp [createOrGetShortLink, h]

theorem createOrGet_short_notfound {store : Store} {host : String} {link : DurableLink}
    {pid : Option String} {cfg : TenantConfig} {rand : List Nat}
    (h : FindExistingShortLink store host link pid = none) :
    createOrGetShortLink store host link true pid cfg rand =
      ({ shortLink := fullLink cfg.urlScheme host
           (generateDurableLinkPath cfg.shortPathLength rand),
         warnings := [] },
       store ++ [FromDurableLink link host
         (generateDurableLinkPath cfg.shortPathLength rand) false pid]) := by
  simp [createOrGetShortLink, h]

/-- After any SHORT create-or-reuse, the resulting store answers the same
reuse query with exactly the path that was returned. -/
theorem createOrGet_then_find (store : Store) (host : String) (link : DurableLink)
    (pid : Option String) (cfg : TenantConfig) (rand : List Nat) :
    ∃ p, (createOrGetShortLink store host link true pid cfg rand).1.shortLink
        = fullLink cfg.urlScheme host p ∧
      FindExistingShortLink (createOrGetShortLink store host link true pid cfg rand).2
        host link pid = some p := by
  cases h : FindExistingShortLink store host link pid with
  | some p =>
      refine ⟨p, ?_, ?_⟩ <;> rw [createOrGet_short_found h]
      exact h
  | none =>
      refine ⟨generateDurableLinkPath cfg.shortPathLength rand, ?_, ?_⟩ <;>
        rw [createOrGet_short_notfound h]
      exact findExisting_append_self h

theorem normalize_wantsShort {req : CreateDurableLinkRequest} {cfg : TenantConfig}
    (h : strToUpper req.suffix.option = "SHORT") :
    (normalizeCreate req cfg).2.1 = true := by
  show (validateSuffixOption req.suffix).1 = true
  rw [validateSuffix_short h]

/-- C2 (amended): after a successful SHORT creation, repeating the identical
request against the resulting store returns the same short link, adds no
rows — and carries exactly the warnings of the first call (so none
whenever the first call warned of nothing), rather than never carrying
warnings. -/
theorem C2_short_reuse_same_path_same_warnings (store : Store)
    (req : CreateDurableLinkRequest) (pid : Option String) (cfg : TenantConfig)
    (r1 r2 : List Nat) (resp1 : ShortLinkResponse) (s1 : Store)
    (hs : strToUpper req.suffix.option = "SHORT")
    (h1 : CreateDurableLink store req pid cfg r1 = .ok (resp1, s1)) :
    ∃ resp2, CreateDurableLink s1 req pid cfg r2 = .ok (resp2, s1) ∧
      resp2.shortLink = resp1.shortLink ∧ resp2.warnings = resp1.warnings := by
  unfold CreateDurableLink at h1 ⊢
  cases hch : cleanHost req.durableLinkInfo.host with
  | error e => rw [hch] at h1; simp at h1
  | ok host =>
      rw [hch] at h1
      simp only at h1 ⊢
      by_cases hd : isDomainAllowed cfg.domainAllowList req.durableLinkInfo.link
      · rw [if_neg (not_not_intro hd)] at h1 ⊢
        simp only [Except.ok.injEq, Prod.mk.injEq] at h1
        obtain ⟨hresp, hstore⟩ := h1
        rw [normalize_wantsShort hs] at hresp hstore ⊢
        obtain ⟨p, hp1, hp2⟩ :=
          createOrGet_then_find store host (normalizeCreate req cfg).1 pid cfg r1
        rw [hstore] at hp2
        rw [createOrGet_short_found hp2]
        refine ⟨_, rfl, ?_, ?_⟩
        · show fullLink cfg.urlScheme host p = resp1.shortLink
          rw [← hresp]
          exact hp1.symm
        · show (normalizeCreate req cfg).2.2 = resp1.warnings
          rw [← hresp]
      · rw [if_pos] at h1
        · simp at h1
        · simpa using hd

/-- C2 counterexample to the claim as stated: a SHORT request with a
malformed Android fallback link succeeds, is reused on the second call with
the same short link — and the second response still carries the
`MALFORMED_PARAM` warning, so "no warnings on the second call" is false. -/
theorem C2_counterexample_second_call_warnings :
    c2run1 = .ok (respOf c2run1, storeOf c2run1) ∧
    c2run2 = .ok (respOf c2run2, storeOf c2run2) ∧
    (respOf c2run2).shortLink = (respOf c2run1).shortLink ∧
    (respOf c2run2).warnings ≠ [] :=
  ⟨by decide, by decide, by decide, by decide⟩

/-- Witness for the amended C2 at a concrete warning-free request. -/
theorem C2_short_reuse_witness :
    strToUpper c2wreq.suffix.option = "SHORT" ∧
    (∃ resp2, CreateDurableLink (storeOf c2wrun1) c2wreq none sampleCfg
        [9, 9, 9, 9, 9, 9, 9, 9] = .ok (resp2, storeOf c2wrun1) ∧
      resp2.shortLink = (respOf c2wrun1).shortLink ∧
      resp2.warnings = (respOf c2wrun1).warnings) :=
  ⟨by decide,
   C2_short_reuse_same_path_same_warnings [] c2wreq none sampleCfg
     [0, 1, 2, 3, 4, 5, 6, 7] [9, 9, 9, 9, 9, 9, 9, 9]
     (respOf c2wrun1) (storeOf c2wrun1) (by decide) (by decide)⟩

/-! Lemmas for the UNGUESSABLE path of `createOrGetShortLink`, and C3. -/

theorem validateSuffix_not_short {s : Suffix} (h : strToUpper s.option ≠ "SHORT") :
    (validateSuffixOption s).1 = false := by
  unfold validateSuffixOption
  simp only
  split
  · rfl
  · split
    · rfl
    · rename_i h1 h2
      exfalso
      apply h
      rcases not_and_or.1 h1 with h3 | h3
      · exact not_not.1 h3
      · exact absurd (not_not.1 h3) h2

theorem normalize_wantsShort_false {req : CreateDurableLinkRequest}
    {cfg : TenantConfig} (h : strToUpper req.suffix.option ≠ "SHORT") :
    (normalizeCreate req cfg).2.1 = false := by
  show (validateSuffixOption req.suffix).1 = false
  exact validateSuffix_not_short h

/-- For the non-short branch no lookup happens: the result is always a fresh
unguessable row appended to the store. -/
theorem createOrGet_unguessable (store : Store) (host : String) (link : DurableLink)
    (pid : Option String) (cfg : TenantConfig) (rand : List Nat) :
    createOrGetShortLink store host link false pid cfg rand =
      ({ shortLink := fullLink cfg.urlScheme host
           (generateDurableLinkPath cfg.unguessablePathLength rand),
         warnings := [] },
       store ++ [FromDurableLink link host
         (generateDurableLinkPath cfg.unguessablePathLength rand) true pid]) := by
  simp [createOrGetShortLink]

/-- A successful creation implies the host cleaned and the domain was
allowed. -/
theorem create_ok_inv {store : Store} {req : CreateDurableLinkRequest}
    {pid : Option String} {cfg : TenantConfig} {rand : List Nat}
    {resp : ShortLinkResponse} {s' : Store}
    (h : CreateDurableLink store req pid cfg rand = .ok (resp, s')) :
    ∃ host, cleanHost req.durableLinkInfo.host = .ok host ∧
      isDomainAllowed cfg.domainAllowList req.durableLinkInfo.link = true := by
  unfold CreateDurableLink at h
  cases hch : cleanHost req.durableLinkInfo.host with
  | error e => rw [hch] at h; simp at h
  | ok host =>
      rw [hch] at h
      simp only at h
      by_cases hd : isDomainAllowed cfg.domainAllowList req.durableLinkInfo.link
      · exact ⟨host, rfl, hd⟩
      · rw [if_pos] at h
        · simp at h
        · simpa using hd

/-- Closed form of a non-SHORT creation: a fresh unguessable row, no reads
of the store. -/
theorem create_unguessable_eq (store : Store) (req : CreateDurableLinkRequest)
    (pid : Option String) (cfg : TenantConfig) (rand : List Nat)
    (hns : strToUpper req.suffix.option ≠ "SHORT")
    {host : String} (hch : cleanHost req.durableLinkInfo.host = .ok host)
    (hd : isDomainAllowed cfg.domainAllowList req.durableLinkInfo.link = true) :
    CreateDurableLink store req pid cfg rand = .ok
      ({ shortLink := fullLink cfg.urlScheme host
           (generateDurableLinkPath cfg.unguessablePathLength rand),
         warnings := (normalizeCreate req cfg).2.2 },
       store ++ [FromDurableLink (normalizeCreate req cfg).1 host
         (generateDurableLinkPath cfg.unguessablePathLength rand) true pid]) := by
  unfold CreateDurableLink
  rw [hch]
  simp only
  rw [if_neg (not_not_intro hd), normalize_wantsShort_false hns,
    createOrGet_unguessable]

theorem fullLink_path_inj {sch host p1 p2 : String}
    (h : fullLink sch host p1 = fullLink sch host p2) : p1 = p2 := by
  unfold fullLink at h
  have hd := congrArg String.data h
  simp only [String.data_append, List.append_assoc] at hd
  exact String.ext (List.append_cancel_left (List.append_cancel_left
    (List.append_cancel_left (List.append_cancel_left hd))))

/-- C3: a creation resolved to UNGUESSABLE never performs the reuse lookup —
its response is the same whatever the store holds — and always appends a
freshly generated row with `isUnguessablePath = true`; hence two such
creations whose generated paths differ return different short links. -/
theorem C3_unguessable_always_fresh (store : Store) (req : CreateDurableLinkRequest)
    (pid : Option String) (cfg : TenantConfig) (rand : List Nat)
    (resp : ShortLinkResponse) (s' : Store)
    (hns : strToUpper req.suffix.option ≠ "SHORT")
    (h : CreateDurableLink store req pid cfg rand = .ok (resp, s')) :
    (∃ row, s' = store ++ [row] ∧ row.isUnguessablePath = true ∧
        row.path = generateDurableLinkPath cfg.unguessablePathLength rand ∧
        resp.shortLink = fullLink cfg.urlScheme row.host row.path) ∧
    (∀ store2 : Store, ∃ s2, CreateDurableLink store2 req pid cfg rand = .ok (resp, s2)) ∧
    (∀ rand2 resp2 s2, CreateDurableLink s' req pid cfg rand2 = .ok (resp2, s2) →
        generateDurableLinkPath cfg.unguessablePathLength rand ≠
          generateDurableLinkPath cfg.unguessablePathLength rand2 →
        resp2.shortLink ≠ resp.shortLink) := by
  obtain ⟨host, hch, hd⟩ := create_ok_inv h
  rw [create_unguessable_eq store req pid cfg rand hns hch hd] at h
  simp only [Except.ok.injEq, Prod.mk.injEq] at h
  obtain ⟨hresp, hstore⟩ := h
  refine ⟨?_, ?_, ?_⟩
  · refine ⟨_, hstore.symm, ?_, ?_, ?_⟩
    · exact fromDL_unguessable ..
    · exact fromDL_path ..
    · rw [← hresp, fromDL_host, fromDL_path]
  · intro store2
    refine ⟨store2 ++ [FromDurableLink (normalizeCreate req cfg).1 host
      (generateDurableLinkPath cfg.unguessablePathLength rand) true pid], ?_⟩
    rw [create_unguessable_eq store2 req pid cfg rand hns hch hd, ← hresp]
  · intro rand2 resp2 s2 h2 hne
    rw [create_unguessable_eq s' req pid cfg rand2 hns hch hd] at h2
    simp only [Except.ok.injEq, Prod.mk.injEq] at h2
    obtain ⟨hresp2, _⟩ := h2
    rw [← hresp2, ← hresp]
    intro heq
    exact hne (fullLink_path_inj heq).symm

/-- Witness for C3 at a concrete UNGUESSABLE request on the empty store. -/
theorem C3_unguessable_always_fresh_witness :
    (∃ row, storeOf c3run = [] ++ [row] ∧ row.isUnguessablePath = true ∧
        row.path = generateDurableLinkPath sampleCfg.unguessablePathLength (List.range 17) ∧
        (respOf c3run).shortLink = fullLink sampleCfg.urlScheme row.host row.path) ∧
    (∀ store2 : Store, ∃ s2, CreateDurableLink store2 c3req none sampleCfg
        (List.range 17) = .ok (respOf c3run, s2)) ∧
    (∀ rand2 resp2 s2, CreateDurableLink (storeOf c3run) c3req none sampleCfg rand2
          = .ok (resp2, s2) →
        generateDurableLinkPath sampleCfg.unguessablePathLength (List.range 17) ≠
          generateDurableLinkPath sampleCfg.unguessablePathLength rand2 →
        resp2.shortLink ≠ (respOf c3run).shortLink) :=
  C3_unguessable_always_fresh [] c3req none sampleCfg (List.range 17)
    (respOf c3run) (storeOf c3run) (by decide) (by decide)

/-! Lemmas about warning codes and the URL-clearing steps, and C4. -/

theorem count_eq_zero_of_codes {w : Warning} {l : List Warning} {c : String}
    (hl : ∀ x ∈ l, x.warningCode = c) (hw : w.warningCode ≠ c) : l.count w = 0 :=
  List.count_eq_zero_of_not_mem fun hmem => hw (hl w hmem)

theorem unrecognizedIf_codes {v : Option String} {nm mp : String} :
    ∀ w ∈ unrecognizedIf v nm mp, w.warningCode = "UNRECOGNIZED_PARAM" := by
  intro w hw
  unfold unrecognizedIf at hw
  split at hw
  · simp at hw; subst hw; rfl
  · simp at hw

theorem itunesWarnings_codes (dl : DurableLink) :
    ∀ w ∈ itunesWarnings dl, w.warningCode = "UNRECOGNIZED_PARAM" := by
  intro w hw
  unfold itunesWarnings at hw
  simp only [List.mem_append] at hw
  rcases hw with hw | hw
  · split at hw
    · simp only [List.mem_append] at hw
      rcases hw with ((hw | hw) | hw) | hw <;> exact unrecognizedIf_codes w hw
    · simp at hw
  · split at hw
    · simp only [List.mem_append] at hw
      rcases hw with (hw | hw) | hw <;> exact unrecognizedIf_codes w hw
    · simp at hw

theorem applyDefaults_codes (params : CreateDurableLinkRequest) (cfg : TenantConfig) :
    ∀ w ∈ (applyDefaults params cfg).2, w.warningCode = "DEFAULT_APPLIED" := by
  intro w hw
  unfold applyDefaults at hw
  rcases h1 : params.durableLinkInfo.iosParameters.iosAppStoreId with _ | isi <;>
    rcases h2 : cfg.defaultIOSAppStoreId with _ | di <;>
    rcases h3 : params.durableLinkInfo.androidParameters.androidPackageName with _ | apn <;>
    rcases h4 : cfg.defaultAndroidPackage with _ | dp <;>
    simp only [h1, h2, h3, h4] at hw <;>
    simp at hw <;>
    first
      | (rcases hw with rfl | rfl
         · rfl
         · rfl)
      | (subst hw; rfl)

/-- Applying tenant defaults touches only the App Store ID and the Android
package name, never a URL field. -/
theorem applyDefaults_urlField (fld : URLField) (params : CreateDurableLinkRequest)
    (cfg : TenantConfig) :
    getURLField fld (applyDefaults params cfg).1 = getURLField fld params.durableLinkInfo := by
  cases fld <;>
    (unfold applyDefaults getURLField
     rcases h1 : params.durableLinkInfo.iosParameters.iosAppStoreId with _ | isi <;>
       rcases h2 : cfg.defaultIOSAppStoreId with _ | di <;>
       rcases h3 : params.durableLinkInfo.androidParameters.androidPackageName with _ | apn <;>
       rcases h4 : cfg.defaultAndroidPackage with _ | dp <;>
       simp only [h1, h2, h3, h4])

theorem validateSuffix_some_code {s : Suffix} {w : Warning}
    (h : (validateSuffixOption s).2 = some w) :
    w.warningCode = "INVALID_SUFFIX_OPTION" := by
  unfold validateSuffixOption at h
  simp only at h
  split at h
  · simp at h; subst h; rfl
  · split at h <;> simp at h

theorem clearStep_bad {v : Option String} {nm : String} (h : badURLOpt v = true) :
    clearStep v nm = (none, [malformedWarning nm]) := by
  simp [clearStep, h]

theorem clearStep_count_self {v : Option String} {nm : String}
    (h : badURLOpt v = true) :
    (clearStep v nm).2.count (malformedWarning nm) = 1 := by
  rw [clearStep_bad h]
  simp

theorem clearStep_count_other {v : Option String} {nm nm' : String}
    (hne : malformedWarning nm' ≠ malformedWarning nm) :
    (clearStep v nm').2.count (malformedWarning nm) = 0 := by
  unfold clearStep
  split
  · simp [List.count_singleton, hne]
  · simp

theorem vca_warnings (dl : DurableLink) :
    (validateAndClearAll dl).2 =
      (clearStep dl.androidParameters.androidFallbackLink "androidFallbackLink").2 ++
      (clearStep dl.iosParameters.iosFallbackLink "iosFallbackLink").2 ++
      (clearStep dl.iosParameters.iosIpadFallbackLink "iosIpadFallbackLink").2 ++
      (clearStep dl.otherPlatformParameters.fallbackURL "fallbackUrl").2 ++
      (clearStep dl.socialMetaTagInfo.socialImageLink "socialImageLink").2 := rfl

theorem vca_field (fld : URLField) (dl : DurableLink) :
    getURLField fld (validateAndClearAll dl).1 =
      (clearStep (getURLField fld dl) (urlFieldName fld)).1 := by
  cases fld <;> rfl

theorem vca_count (fld : URLField) (dl : DurableLink)
    (hbad : badURLOpt (getURLField fld dl) = true) :
    (validateAndClearAll dl).2.count (malformedWarning (urlFieldName fld)) = 1 := by
  rw [vca_warnings]
  simp only [List.count_append]
  cases fld <;>
    simp only [getURLField, urlFieldName] at hbad ⊢ <;>
    rw [clearStep_count_self hbad] <;>
    (repeat rw [clearStep_count_other (by decide)])

theorem malformedWarning_code (nm : String) :
    (malformedWarning nm).warningCode = "MALFORMED_PARAM" := rfl

theorem warning_ne_of_code {x y : Warning} (h : x.warningCode ≠ y.warningCode) :
    x ≠ y := fun he => h (by rw [he])

theorem vlp_count (fld : URLField) (dl : DurableLink)
    (hbad : badURLOpt (getURLField fld dl) = true) :
    (validateLinkParameters dl).2.count (malformedWarning (urlFieldName fld)) = 1 := by
  show ((validateAndClearAll dl).2 ++ itunesWarnings (validateAndClearAll dl).1).count _ = 1
  rw [List.count_append, vca_count fld dl hbad,
    count_eq_zero_of_codes (itunesWarnings_codes _)
      (by rw [malformedWarning_code]; decide)]

theorem vlp_field (fld : URLField) (dl : DurableLink)
    (hbad : badURLOpt (getURLField fld dl) = true) :
    getURLField fld (validateLinkParameters dl).1 = none := by
  show getURLField fld (validateAndClearAll dl).1 = none
  rw [vca_field, clearStep_bad hbad]

theorem normalize_count (fld : URLField) (req : CreateDurableLinkRequest)
    (cfg : TenantConfig)
    (hbad : badURLOpt (getURLField fld req.durableLinkInfo) = true) :
    (normalizeCreate req cfg).2.2.count (malformedWarning (urlFieldName fld)) = 1 := by
  have hbad2 : badURLOpt (getURLField fld (applyDefaults req cfg).1) = true := by
    rw [applyDefaults_urlField]; exact hbad
  unfold normalizeCreate
  simp only
  cases hso : (validateSuffixOption req.suffix).2 with
  | none =>
      rw [List.count_append, vlp_count fld _ hbad2,
        count_eq_zero_of_codes (applyDefaults_codes req cfg)
          (by rw [malformedWarning_code]; decide)]
  | some w =>
      rw [List.count_append, List.count_append, vlp_count fld _ hbad2,
        count_eq_zero_of_codes (applyDefaults_codes req cfg)
          (by rw [malformedWarning_code]; decide),
        List.count_singleton]
      have hne : w ≠ malformedWarning (urlFieldName fld) := by
        apply warning_ne_of_code
        rw [validateSuffix_some_code hso, malformedWarning_code]
        decide
      simp [hne]

theorem normalize_field_cleared (fld : URLField) (req : CreateDurableLinkRequest)
    (cfg : TenantConfig)
    (hbad : badURLOpt (getURLField fld req.durableLinkInfo) = true) :
    getURLField fld (normalizeCreate req cfg).1 = none := by
  show getURLField fld (validateLinkParameters (applyDefaults req cfg).1).1 = none
  apply vlp_field
  rw [applyDefaults_urlField]
  exact hbad

theorem fromDL_urlField (fld : URLField) (dl : DurableLink) (h p : String)
    (u : Bool) (pid : Option String) :
    getRowURLField fld (FromDurableLink dl h p u pid) = getURLField fld dl := by
  cases fld <;> rfl

/-- Whatever `createOrGetShortLink` does, every row of the resulting store
was already present or is the freshly built row for the validated link. -/
theorem createOrGet_rows (store : Store) (host : String) (link : DurableLink)
    (sp : Bool) (pid : Option String) (cfg : TenantConfig) (rand : List Nat) :
    ∀ row ∈ (createOrGetShortLink store host link sp pid cfg rand).2,
      row ∈ store ∨ ∃ p, row = FromDurableLink link host p (!sp) pid := by
  unfold createOrGetShortLink
  cases hr : (if sp then FindExistingShortLink store host link pid else none) with
  | some p =>
      simp only [hr]
      exact fun row hrow => Or.inl hrow
  | none =>
      simp only [hr]
      intro row hrow
      simp only [List.mem_append, List.mem_singleton] at hrow
      rcases hrow with h | h
      · exact Or.inl h
      · exact Or.inr ⟨_, h⟩

/-- Full inversion of a successful structured creation. -/
theorem create_ok_elim {store : Store} {req : CreateDurableLinkRequest}
    {pid : Option String} {cfg : TenantConfig} {rand : List Nat}
    {resp : ShortLinkResponse} {s' : Store}
    (h : CreateDurableLink store req pid cfg rand = .ok (resp, s')) :
    ∃ host, cleanHost req.durableLinkInfo.host = .ok host ∧
      isDomainAllowed cfg.domainAllowList req.durableLinkInfo.link = true ∧
      resp = { (createOrGetShortLink store host (normalizeCreate req cfg).1
                 (normalizeCreate req cfg).2.1 pid cfg rand).1 with
               warnings := (normalizeCreate req cfg).2.2 } ∧
      s' = (createOrGetShortLink store host (normalizeCreate req cfg).1
             (normalizeCreate req cfg).2.1 pid cfg rand).2 := by
  unfold CreateDurableLink at h
  cases hch : cleanHost req.durableLinkInfo.host with
  | error e => rw [hch] at h; simp at h
  | ok host =>
      rw [hch] at h
      simp only at h
      by_cases hd : isDomainAllowed cfg.domainAllowList req.durableLinkInfo.link
      · rw [if_neg (not_not_intro hd)] at h
        simp only [Except.ok.injEq, Prod.mk.injEq] at h
        exact ⟨host, rfl, hd, h.1.symm, h.2.symm⟩
      · rw [if_pos] at h
        · simp at h
        · simpa using hd

/-- C4 (amended): in the structured variant, a present, non-empty,
ill-formed value in any of the five URL fields yields exactly one
`MALFORMED_PARAM` warning naming the field and is cleared before hashing
and persistence, so every newly stored row has that field absent. The
flattened variant only checks the social image link, and although it emits
the warning, the malformed value is still written into the stored query
string. -/
theorem C4_malformed_url_cleared_amended :
    (∀ (fld : URLField) (store : Store) (req : CreateDurableLinkRequest)
        (pid : Option String) (cfg : TenantConfig) (rand : List Nat)
        (resp : ShortLinkResponse) (s' : Store),
        badURLOpt (getURLField fld req.durableLinkInfo) = true →
        CreateDurableLink store req pid cfg rand = .ok (resp, s') →
        resp.warnings.count (malformedWarning (urlFieldName fld)) = 1 ∧
        ∀ row ∈ s', row ∈ store ∨ getRowURLField fld row = none) ∧
    ((flatRespOf c4FlatRunSi).warnings =
        [⟨"MALFORMED_PARAM", "Param \x27si\x27 is not a valid URL"⟩] ∧
      flatStoreOf c4FlatRunSi = [⟨"example.com", "abcdefghijklmnopq",
        "link=https%3A%2F%2Fexample.com%2Ftarget&si=not-a-valid-url", true, none⟩]) := by
  refine ⟨?_, by decide, by decide⟩
  intro fld store req pid cfg rand resp s' hbad h
  obtain ⟨host, hch, hd, hresp, hstore⟩ := create_ok_elim h
  constructor
  · rw [hresp]
    show (normalizeCreate req cfg).2.2.count (malformedWarning (urlFieldName fld)) = 1
    exact normalize_count fld req cfg hbad
  · intro row hrow
    rw [hstore] at hrow
    rcases createOrGet_rows store host _ _ pid cfg rand row hrow with hm | ⟨p, hp⟩
    · exact Or.inl hm
    · right
      rw [hp, fromDL_urlField]
      exact normalize_field_cleared fld req cfg hbad

/-- C4 counterexample at the flattened variant: a malformed Android
fallback link produces no `MALFORMED_PARAM` warning at all and the value is
persisted inside the stored query string. -/
theorem C4_counterexample_flat_stores_malformed :
    (flatRespOf c4FlatRunAfl).warnings = [] ∧
    flatStoreOf c4FlatRunAfl = [⟨"example.com", "abcdefghijklmnopq",
      "afl=not-a-valid-url&link=https%3A%2F%2Fexample.com%2Ftarget", true, none⟩] ∧
    isURL "not-a-valid-url" = false :=
  ⟨by decide, by decide, by decide⟩

/-- Witness for the structured half of amended C4 at a concrete request. -/
theorem C4_malformed_url_cleared_witness :
    (respOf c4run).warnings.count (malformedWarning (urlFieldName .si)) = 1 ∧
    ∀ row ∈ storeOf c4run, row ∈ ([] : Store) ∨ getRowURLField .si row = none :=
  C4_malformed_url_cleared_amended.1 .si [] c4req none sampleCfg (List.range 17)
    (respOf c4run) (storeOf c4run) (by decide) (by decide)

/-! Lemmas about the flattened pipeline's warnings and suffix handling, and
C5. -/

theorem flatUnrec_codes {v nm mp : String} :
    ∀ w ∈ flatUnrec v nm mp, w.warningCode = "UNRECOGNIZED_PARAM" := by
  intro w hw
  unfold flatUnrec at hw
  split at hw
  · simp at hw; subst hw; rfl
  · simp at hw

theorem flatWarnings_codes (info : FlatDurableLink) :
    ∀ w ∈ flatWarnings info, w.warningCode = "MALFORMED_PARAM" ∨
      w.warningCode = "UNRECOGNIZED_PARAM" := by
  intro w hw
  unfold flatWarnings at hw
  simp only [List.mem_append] at hw
  rcases hw with (hw | hw) | hw
  · split at hw
    · simp at hw; subst hw; left; rfl
    · simp at hw
  · split at hw
    · simp only [List.mem_append] at hw
      rcases hw with ((hw | hw) | hw) | hw <;> exact Or.inr (flatUnrec_codes w hw)
    · simp at hw
  · split at hw
    · simp only [List.mem_append] at hw
      rcases hw with (hw | hw) | hw <;> exact Or.inr (flatUnrec_codes w hw)
    · simp at hw

/-- Inversion of a successful flattened creation. -/
theorem flat_ok_elim {store : List FlatRow} {req : FlatCreateDurableLinkRequest}
    {pid : Option String} {cfg : FlatTenantConfig} {rand : List Nat}
    {resp : ShortLinkResponse} {s' : List FlatRow}
    (h : flatCreateDurableLink store req pid cfg rand = .ok (resp, s')) :
    resp = { (flatCreateOrGetShortLink store
        (match cleanHost req.durableLinkInfo.host with
         | .ok host => host
         | .error _ => "") (flatQueryParams req.durableLinkInfo)
        (req.suffix.option = "SHORT") pid cfg rand).1 with
        warnings := flatWarnings req.durableLinkInfo } ∧
      s' = (flatCreateOrGetShortLink store
        (match cleanHost req.durableLinkInfo.host with
         | .ok host => host
         | .error _ => "") (flatQueryParams req.durableLinkInfo)
        (req.suffix.option = "SHORT") pid cfg rand).2 := by
  unfold flatCreateDurableLink at h
  cases hch : cleanHost req.durableLinkInfo.host with
  | error e => rw [hch] at h; simp at h
  | ok host =>
      rw [hch] at h
      simp only at h
      by_cases hd : isDomainAllowed cfg.domainAllowList req.durableLinkInfo.link
      · rw [if_neg (not_not_intro hd)] at h
        split at h
        · simp at h
        · simp only [Except.ok.injEq, Prod.mk.injEq] at h
          exact ⟨h.1.symm, h.2.symm⟩
      · rw [if_pos] at h
        · simp at h
        · simpa using hd

theorem flatCreateOrGet_unguessable (store : List FlatRow) (host : String)
    (q : Values) (pid : Option String) (cfg : FlatTenantConfig) (rand : List Nat) :
    flatCreateOrGetShortLink store host q false pid cfg rand =
      ({ shortLink := fullLink cfg.urlScheme host
           (generateDurableLinkPath cfg.unguessablePathLength rand),
         warnings := [] },
       store ++ [{ host := host,
                   path := generateDurableLinkPath cfg.unguessablePathLength rand,
                   queryParams := valuesEncode q, isUnguessablePath := true,
                   projectID := pid }]) := by
  simp [flatCreateOrGetShortLink]

/-- C5 (amended): the structured `validateSuffixOption` behaves exactly as
the claim states — case-insensitive `SHORT` and `UNGUESSABLE` without
warning, everything else warned once and treated as UNGUESSABLE. The
flattened variant instead compares the option case-sensitively with
`"SHORT"`, never emits `INVALID_SUFFIX_OPTION`, and silently treats every
other value — lowercase `short` included — as UNGUESSABLE. -/
theorem C5_suffix_resolution_amended :
    (∀ s : Suffix,
      (strToUpper s.option = "SHORT" → validateSuffixOption s = (true, none)) ∧
      (strToUpper s.option = "UNGUESSABLE" → validateSuffixOption s = (false, none)) ∧
      (strToUpper s.option ≠ "SHORT" → strToUpper s.option ≠ "UNGUESSABLE" →
        validateSuffixOption s = (false, some
          { warningCode := "INVALID_SUFFIX_OPTION",
            warningMessage := "Param \x27suffix.option\x27 must be \x27SHORT\x27 or \x27UNGUESSABLE\x27. Received \x27" ++
              s.option ++ "\x27, defaulting to \x27UNGUESSABLE\x27." }))) ∧
    (∀ (store : List FlatRow) (req : FlatCreateDurableLinkRequest)
        (pid : Option String) (cfg : FlatTenantConfig) (rand : List Nat)
        (resp : ShortLinkResponse) (s' : List FlatRow),
      flatCreateDurableLink store req pid cfg rand = .ok (resp, s') →
      (∀ w ∈ resp.warnings, w.warningCode ≠ "INVALID_SUFFIX_OPTION") ∧
      (req.suffix.option ≠ "SHORT" →
        ∃ row, s' = store ++ [row] ∧ row.isUnguessablePath = true)) := by
  constructor
  · intro s
    refine ⟨fun h => validateSuffix_short h, fun h => ?_, fun h1 h2 => ?_⟩
    · simp [validateSuffixOption, h]
    · unfold validateSuffixOption
      simp only
      rw [if_pos ⟨h1, h2⟩]
  · intro store req pid cfg rand resp s' h
    obtain ⟨hresp, hstore⟩ := flat_ok_elim h
    constructor
    · intro w hw
      rw [hresp] at hw
      have hw2 : w ∈ flatWarnings req.durableLinkInfo := hw
      rcases flatWarnings_codes _ w hw2 with hc | hc <;> rw [hc] <;> decide
    · intro hne
      rw [hstore, decide_eq_false hne, flatCreateOrGet_unguessable]
      exact ⟨_, rfl, rfl⟩

/-- C5 counterexample: the flattened variant given lowercase `short`
creates an unguessable 17-character path and emits no warning — neither the
claimed case-insensitive SHORT handling nor the claimed
`INVALID_SUFFIX_OPTION` warning happens. -/
theorem C5_counterexample_flat_case_sensitive :
    c5FlatReq.suffix.option = "short" ∧
    flatCreateDurableLink [] c5FlatReq none sampleFlatCfg (List.range 17) =
      .ok ({ shortLink := "https://example.com/abcdefghijklmnopq", warnings := [] },
           [⟨"example.com", "abcdefghijklmnopq",
             "link=https%3A%2F%2Fexample.com%2Ftarget", true, none⟩]) ∧
    sampleFlatCfg.shortPathLength = 8 ∧ sampleFlatCfg.unguessablePathLength = 17 :=
  ⟨rfl, by decide, rfl, rfl⟩

/-- Witness for amended C5 at concrete suffixes and a concrete flattened
run. -/
theorem C5_suffix_resolution_witness :
    validateSuffixOption ⟨"sHoRt"⟩ = (true, none) ∧
    validateSuffixOption ⟨"unguessable"⟩ = (false, none) ∧
    validateSuffixOption ⟨"INVALID"⟩ = (false, some
      { warningCode := "INVALID_SUFFIX_OPTION",
        warningMessage := "Param \x27suffix.option\x27 must be \x27SHORT\x27 or \x27UNGUESSABLE\x27. Received \x27INVALID\x27, defaulting to \x27UNGUESSABLE\x27." }) ∧
    ((∀ w ∈ (flatRespOf c5FlatRun).warnings, w.warningCode ≠ "INVALID_SUFFIX_OPTION") ∧
      (c5FlatReq.suffix.option ≠ "SHORT" →
        ∃ row, flatStoreOf c5FlatRun = [] ++ [row] ∧ row.isUnguessablePath = true)) :=
  ⟨(C5_suffix_resolution_amended.1 ⟨"sHoRt"⟩).1 (by decide),
   (C5_suffix_resolution_amended.1 ⟨"unguessable"⟩).2.1 (by decide),
   (C5_suffix_resolution_amended.1 ⟨"INVALID"⟩).2.2 (by decide) (by decide),
   C5_suffix_resolution_amended.2 [] c5FlatReq none sampleFlatCfg (List.range 17)
     (flatRespOf c5FlatRun) (flatStoreOf c5FlatRun) (by decide)⟩

/-! Lemmas for `ResolveShortPath`'s path-format handling, and C6. -/

theorem resolve_bad_segments {raw : String} {store : Store} {pid : Option String}
    {u : GoURL} (hu : urlParse raw = some u)
    (hseg : singleNonEmptySegment u.path = false) :
    ResolveShortPath store raw pid = .error .invalidPathFormat := by
  unfold ResolveShortPath
  rw [hu]
  simp only
  rw [if_pos]
  simp only [singleNonEmptySegment, Bool.and_eq_true, decide_eq_true_eq,
    Bool.and_eq_false_iff, decide_eq_false_iff_not, not_not] at hseg
  rcases hseg with h | h
  · exact Or.inl h
  · exact Or.inr h

theorem resolve_not_found {raw : String} {store : Store} {pid : Option String}
    {u : GoURL} (hu : urlParse raw = some u)
    (hseg : singleNonEmptySegment u.path = true)
    (hmiss : GetLinkByHostAndPath store (removePreviewFromHost u.host)
      (String.mk ((splitChar '/' (trimChar '/' u.path.data)).headD [])) pid = none) :
    ResolveShortPath store raw pid = .error .linkNotFound := by
  unfold ResolveShortPath
  rw [hu]
  simp only
  simp only [singleNonEmptySegment, Bool.and_eq_true, decide_eq_true_eq] at hseg
  rw [if_neg]
  · unfold getLongLinkFromHostAndPath
    rw [hmiss]
  · push_neg
    exact hseg

/-- C6 (amended): the structured `ResolveShortPath` fails with
`InvalidPathFormat` exactly when the parsed path does not consist of one
non-empty slash-trimmed segment — in particular on a multi-segment path and
on the bare `/` — and fails with `LinkNotFound` on a well-formed segment
absent from storage. The flattened variant rejects only multi-segment
paths: for `https://example.com/` it looks up the empty path and fails with
`LinkNotFound`, not `InvalidPathFormat`. -/
theorem C6_resolve_path_format_amended :
    (∀ (raw : String) (store : Store) (pid : Option String) (u : GoURL),
      urlParse raw = some u →
      (singleNonEmptySegment u.path = false →
        ResolveShortPath store raw pid = .error .invalidPathFormat) ∧
      (singleNonEmptySegment u.path = true →
        GetLinkByHostAndPath store (removePreviewFromHost u.host)
          (String.mk ((splitChar '/' (trimChar '/' u.path.data)).headD [])) pid = none →
        ResolveShortPath store raw pid = .error .linkNotFound)) ∧
    (∀ store : Store, ∀ pid : Option String,
      ResolveShortPath store "https://example.com/abc123/extra" pid =
          .error .invalidPathFormat ∧
      ResolveShortPath store "https://example.com/" pid = .error .invalidPathFormat) ∧
    flatResolveShortPath [] "https://example.com/" none sampleFlatCfg =
      .error .linkNotFound := by
  refine ⟨?_, ?_, by decide⟩
  · intro raw store pid u hu
    exact ⟨fun hseg => resolve_bad_segments hu hseg,
      fun hseg hmiss => resolve_not_found hu hseg hmiss⟩
  · intro store pid
    constructor
    · exact resolve_bad_segments
        (u := ⟨"https", "", none, "example.com", "/abc123/extra", "", ""⟩)
        (by decide) (by decide)
    · exact resolve_bad_segments
        (u := ⟨"https", "", none, "example.com", "/", "", ""⟩)
        (by decide) (by decide)

/-- C6 counterexample: the flattened `ResolveShortPath`, cited by the
claim, answers `LinkNotFound` — not `InvalidPathFormat` — for the
zero-segment URL `https://example.com/`. -/
theorem C6_counterexample_flat_empty_segment :
    flatResolveShortPath [] "https://example.com/" none sampleFlatCfg =
        .error .linkNotFound ∧
    ResolveError.linkNotFound ≠ ResolveError.invalidPathFormat :=
  ⟨by decide, by decide⟩

/-- Witness for amended C6: the general clauses applied to a concrete
missing link. -/
theorem C6_resolve_path_format_witness :
    ResolveShortPath [] "https://example.com/zzz7" none = .error .linkNotFound ∧
    ResolveShortPath [] "https://example.com/a/b/c" none = .error .invalidPathFormat :=
  ⟨((C6_resolve_path_format_amended.1 "https://example.com/zzz7" [] none
      ⟨"https", "", none, "example.com", "/zzz7", "", ""⟩ (by decide)).2
      (by decide) (by decide)),
   ((C6_resolve_path_format_amended.1 "https://example.com/a/b/c" [] none
      ⟨"https", "", none, "example.com", "/a/b/c", "", ""⟩ (by decide)).1
      (by decide))⟩

/-! Lemmas counting the iTunes cross-field warnings, and C8. -/

theorem unrecognizedWarning_code (nm mp : String) :
    (unrecognizedWarning nm mp).warningCode = "UNRECOGNIZED_PARAM" := rfl

theorem clearStep_codes {v : Option String} {nm : String} :
    ∀ w ∈ (clearStep v nm).2, w.warningCode = "MALFORMED_PARAM" := by
  intro w hw
  unfold clearStep at hw
  split at hw
  · simp at hw; subst hw; rfl
  · simp at hw

theorem vca_codes (dl : DurableLink) :
    ∀ w ∈ (validateAndClearAll dl).2, w.warningCode = "MALFORMED_PARAM" := by
  intro w hw
  rw [vca_warnings] at hw
  simp only [List.mem_append] at hw
  rcases hw with (((hw | hw) | hw) | hw) | hw <;> exact clearStep_codes w hw

theorem count_unrecIf_self {v : Option String} {nm mp : String}
    (h : presentStr v = true) :
    (unrecognizedIf v nm mp).count (unrecognizedWarning nm mp) = 1 := by
  simp [unrecognizedIf, h]

theorem count_unrecIf_other {v : Option String} {nm' mp' : String} {W : Warning}
    (h : unrecognizedWarning nm' mp' ≠ W) :
    (unrecognizedIf v nm' mp').count W = 0 := by
  unfold unrecognizedIf
  split
  · simp [List.count_singleton, h]
  · simp

/-- `itunesWarnings` as the two guarded blocks, spelled out. -/
theorem itunesWarnings_eq (dl : DurableLink) :
    itunesWarnings dl =
      (if dl.iosParameters.iosAppStoreId = none then
        unrecognizedIf dl.analyticsInfo.itunesConnectAnalytics.atv "at" "isi" ++
        unrecognizedIf dl.analyticsInfo.itunesConnectAnalytics.ct "ct" "isi" ++
        unrecognizedIf dl.analyticsInfo.itunesConnectAnalytics.mt "mt" "isi" ++
        unrecognizedIf dl.analyticsInfo.itunesConnectAnalytics.pt "pt" "isi"
      else []) ++
      (if dl.analyticsInfo.itunesConnectAnalytics.pt = none ∨
          dl.analyticsInfo.itunesConnectAnalytics.pt = some "" then
        unrecognizedIf dl.analyticsInfo.itunesConnectAnalytics.atv "at" "pt" ++
        unrecognizedIf dl.analyticsInfo.itunesConnectAnalytics.ct "ct" "pt" ++
        unrecognizedIf dl.analyticsInfo.itunesConnectAnalytics.mt "mt" "pt"
      else []) := rfl

theorem isi_block_count (dl : DurableLink) {W : Warning}
    (h1 : unrecognizedWarning "at" "isi" ≠ W)
    (h2 : unrecognizedWarning "ct" "isi" ≠ W)
    (h3 : unrecognizedWarning "mt" "isi" ≠ W)
    (h4 : unrecognizedWarning "pt" "isi" ≠ W) :
    (if dl.iosParameters.iosAppStoreId = none then
        unrecognizedIf dl.analyticsInfo.itunesConnectAnalytics.atv "at" "isi" ++
        unrecognizedIf dl.analyticsInfo.itunesConnectAnalytics.ct "ct" "isi" ++
        unrecognizedIf dl.analyticsInfo.itunesConnectAnalytics.mt "mt" "isi" ++
        unrecognizedIf dl.analyticsInfo.itunesConnectAnalytics.pt "pt" "isi"
      else []).count W = 0 := by
  split
  · simp only [List.count_append]
    rw [count_unrecIf_other h1, count_unrecIf_other h2, count_unrecIf_other h3,
      count_unrecIf_other h4]
  · simp

theorem pt_block_count (dl : DurableLink) {W : Warning}
    (h1 : unrecognizedWarning "at" "pt" ≠ W)
    (h2 : unrecognizedWarning "ct" "pt" ≠ W)
    (h3 : unrecognizedWarning "mt" "pt" ≠ W) :
    (if dl.analyticsInfo.itunesConnectAnalytics.pt = none ∨
        dl.analyticsInfo.itunesConnectAnalytics.pt = some "" then
        unrecognizedIf dl.analyticsInfo.itunesConnectAnalytics.atv "at" "pt" ++
        unrecognizedIf dl.analyticsInfo.itunesConnectAnalytics.ct "ct" "pt" ++
        unrecognizedIf dl.analyticsInfo.itunesConnectAnalytics.mt "mt" "pt"
      else []).count W = 0 := by
  split
  · simp only [List.count_append]
    rw [count_unrecIf_other h1, count_unrecIf_other h2, count_unrecIf_other h3]
  · simp

/-- Counting an UNRECOGNIZED warning in the validator output reduces to the
iTunes blocks: the URL-clearing warnings all carry a different code, and
clearing leaves the iTunes and App Store fields untouched. -/
theorem vlp_count_unrec (dl : DurableLink) (W : Warning)
    (hcode : W.warningCode = "UNRECOGNIZED_PARAM") :
    (validateLinkParameters dl).2.count W = (itunesWarnings dl).count W := by
  show ((validateAndClearAll dl).2 ++ itunesWarnings (validateAndClearAll dl).1).count W = _
  rw [List.count_append,
    count_eq_zero_of_codes (vca_codes dl) (by rw [hcode]; decide),
    show itunesWarnings (validateAndClearAll dl).1 = itunesWarnings dl from rfl]
  omega

theorem itunes_count_isi (dl : DurableLink) (fld : ItField)
    (hisi : dl.iosParameters.iosAppStoreId = none)
    (hp : presentStr (getItField fld dl) = true) :
    (itunesWarnings dl).count (unrecognizedWarning (itFieldName fld) "isi") = 1 := by
  rw [itunesWarnings_eq, List.count_append]
  cases fld <;>
    (simp only [getItField] at hp
     rw [if_pos hisi]
     simp only [List.count_append, itFieldName]
     rw [pt_block_count dl (by decide) (by decide) (by decide),
       count_unrecIf_self hp]
     repeat rw [count_unrecIf_other (by decide)])

theorem itunes_count_pt_isi (dl : DurableLink)
    (hisi : dl.iosParameters.iosAppStoreId = none)
    (hp : presentStr dl.analyticsInfo.itunesConnectAnalytics.pt = true) :
    (itunesWarnings dl).count (unrecognizedWarning "pt" "isi") = 1 := by
  rw [itunesWarnings_eq, List.count_append]
  rw [if_pos hisi]
  simp only [List.count_append]
  rw [pt_block_count dl (by decide) (by decide) (by decide),
    count_unrecIf_self hp]
  repeat rw [count_unrecIf_other (by decide)]

theorem itunes_count_pt (dl : DurableLink) (fld : ItField)
    (hpt : dl.analyticsInfo.itunesConnectAnalytics.pt = none ∨
      dl.analyticsInfo.itunesConnectAnalytics.pt = some "")
    (hp : presentStr (getItField fld dl) = true) :
    (itunesWarnings dl).count (unrecognizedWarning (itFieldName fld) "pt") = 1 := by
  rw [itunesWarnings_eq, List.count_append]
  cases fld <;>
    (simp only [getItField] at hp
     rw [if_pos hpt]
     simp only [List.count_append, itFieldName]
     rw [isi_block_count dl (by decide) (by decide) (by decide) (by decide),
       count_unrecIf_self hp]
     repeat rw [count_unrecIf_other (by decide)])

theorem countP_pair {l : List Warning} {w1 w2 : Warning} (hne : w1 ≠ w2) :
    l.countP (fun w => w == w1 || w == w2) = l.count w1 + l.count w2 := by
  induction l with
  | nil => rfl
  | cons a as ih =>
      rw [List.countP_cons, List.count_cons, List.count_cons, ih]
      by_cases h1 : a = w1
      · subst h1
        simp [hne]
        omega
      · by_cases h2 : a = w2
        · subst h2
          simp [h1]
          omega
        · simp [h1, h2]

/-- C8: both iTunes cross-field checks run independently in
`validateLinkParameters`: with the App Store ID absent, each present
`at`/`ct`/`mt`/`pt` field gets its `UNRECOGNIZED_PARAM` warning; with `pt`
absent or empty, each present `at`/`ct`/`mt` field gets another; with both
absent a present field collects exactly two warnings — not deduplicated. -/
theorem C8_itunes_checks_independent (dl : DurableLink) (fld : ItField) :
    (dl.iosParameters.iosAppStoreId = none →
      presentStr (getItField fld dl) = true →
      (validateLinkParameters dl).2.count
        (unrecognizedWarning (itFieldName fld) "isi") = 1) ∧
    (dl.iosParameters.iosAppStoreId = none →
      presentStr dl.analyticsInfo.itunesConnectAnalytics.pt = true →
      (validateLinkParameters dl).2.count (unrecognizedWarning "pt" "isi") = 1) ∧
    ((dl.analyticsInfo.itunesConnectAnalytics.pt = none ∨
        dl.analyticsInfo.itunesConnectAnalytics.pt = some "") →
      presentStr (getItField fld dl) = true →
      (validateLinkParameters dl).2.count
        (unrecognizedWarning (itFieldName fld) "pt") = 1) ∧
    (dl.iosParameters.iosAppStoreId = none →
      dl.analyticsInfo.itunesConnectAnalytics.pt = none →
      presentStr (getItField fld dl) = true →
      (validateLinkParameters dl).2.countP
        (fun w => w == unrecognizedWarning (itFieldName fld) "isi" ||
          w == unrecognizedWarning (itFieldName fld) "pt") = 2) := by
  refine ⟨?_, ?_, ?_, ?_⟩
  · intro hisi hp
    rw [vlp_count_unrec dl _ rfl]
    exact itunes_count_isi dl fld hisi hp
  · intro hisi hp
    rw [vlp_count_unrec dl _ rfl]
    exact itunes_count_pt_isi dl hisi hp
  · intro hpt hp
    rw [vlp_count_unrec dl _ rfl]
    exact itunes_count_pt dl fld hpt hp
  · intro hisi hpt hp
    have hne : unrecognizedWarning (itFieldName fld) "isi" ≠
        unrecognizedWarning (itFieldName fld) "pt" := by
      cases fld <;> decide
    rw [countP_pair hne, vlp_count_unrec dl _ rfl, vlp_count_unrec dl _ rfl,
      itunes_count_isi dl fld hisi hp,
      itunes_count_pt dl fld (Or.inl hpt) hp]

/-- Witness for C8: a present `at` with both `isi` and `pt` absent collects
both warnings, and exactly two in total. -/
theorem C8_itunes_checks_independent_witness :
    (validateLinkParameters c8dl).2.count (unrecognizedWarning "at" "isi") = 1 ∧
    (validateLinkParameters c8dl).2.count (unrecognizedWarning "at" "pt") = 1 ∧
    (validateLinkParameters c8dl).2.countP
      (fun w => w == unrecognizedWarning "at" "isi" ||
        w == unrecognizedWarning "at" "pt") = 2 :=
  ⟨(C8_itunes_checks_independent c8dl .atF).1 (by decide) (by decide),
   (C8_itunes_checks_independent c8dl .atF).2.2.1 (Or.inl (by decide)) (by decide),
   (C8_itunes_checks_independent c8dl .atF).2.2.2 (by decide) (by decide) (by decide)⟩

/-! C10: resolution depends only on the parsed host and path. -/

/-- C10: `ResolveShortPath` reads only the host and path components of the
requested URL: any two parseable inputs whose parses agree on host and path
resolve identically, whatever their scheme, userinfo, query or fragment. -/
theorem C10_resolve_reads_host_path (store : Store) (pid : Option String)
    (raw1 raw2 : String) (u1 u2 : GoURL)
    (h1 : urlParse raw1 = some u1) (h2 : urlParse raw2 = some u2)
    (hhost : u1.host = u2.host) (hpath : u1.path = u2.path) :
    ResolveShortPath store raw1 pid = ResolveShortPath store raw2 pid := by
  unfold ResolveShortPath
  rw [h1, h2]
  simp only
  rw [hhost, hpath]

/-- Witness for C10: differing scheme, userinfo, query and fragment do not
change the resolution outcome. -/
theorem C10_resolve_reads_host_path_witness :
    ResolveShortPath [] "https://example.com/abc?x=1#f" none =
      ResolveShortPath [] "http://user@example.com/abc" none :=
  C10_resolve_reads_host_path [] none _ _
    ⟨"https", "", none, "example.com", "/abc", "x=1", "f"⟩
    ⟨"http", "", some "user", "example.com", "/abc", "", ""⟩
    (by decide) (by decide) rfl rfl

/-! Lemmas for C9: the host field beyond `cleanHost` is inert, `cleanHost`
normalizes decorated hosts, and inserted rows carry the cleaned host. -/

theorem withHost_host (req : CreateDurableLinkRequest) (x : String) :
    (withHost req x).durableLinkInfo.host = x := rfl

theorem withHost_link (req : CreateDurableLinkRequest) (x : String) :
    (withHost req x).durableLinkInfo.link = req.durableLinkInfo.link := rfl

theorem withHost_suffix (req : CreateDurableLinkRequest) (x : String) :
    (withHost req x).suffix = req.suffix := rfl

theorem fromDL_setHost (dl : DurableLink) (x h p : String) (u : Bool) (pid : Option String) :
    FromDurableLink (setDLHost dl x) h p u pid = FromDurableLink dl h p u pid := rfl

theorem createOrGet_setHost (store : Store) (host : String) (dl : DurableLink) (x : String)
    (sp : Bool) (pid : Option String) (cfg : TenantConfig) (rand : List Nat) :
    createOrGetShortLink store host (setDLHost dl x) sp pid cfg rand =
      createOrGetShortLink store host dl sp pid cfg rand := rfl

theorem validateLP_setHost (dl : DurableLink) (x : String) :
    validateLinkParameters (setDLHost dl x) =
      (setDLHost (validateLinkParameters dl).1 x, (validateLinkParameters dl).2) := rfl

theorem applyDefaults_withHost (req : CreateDurableLinkRequest) (x : String) (cfg : TenantConfig) :
    applyDefaults (withHost req x) cfg =
      (setDLHost (applyDefaults req cfg).1 x, (applyDefaults req cfg).2) := by
  obtain ⟨⟨h, l, ⟨apn, afl, amv⟩, ⟨ifl, ipfl, isi⟩, op, sm, ai⟩, suf⟩ := req
  unfold applyDefaults withHost setDLHost
  simp only
  cases isi <;> cases cfg.defaultIOSAppStoreId <;> simp only <;>
    cases apn <;> cases cfg.defaultAndroidPackage <;> rfl

theorem normalizeCreate_withHost (req : CreateDurableLinkRequest) (x : String)
    (cfg : TenantConfig) :
    normalizeCreate (withHost req x) cfg =
      (setDLHost (normalizeCreate req cfg).1 x, (normalizeCreate req cfg).2) := by
  unfold normalizeCreate
  rw [applyDefaults_withHost, withHost_suffix]
  simp only [validateLP_setHost]

theorem create_withHost_eq (store : Store) (req : CreateDurableLinkRequest)
    (pid : Option String) (cfg : TenantConfig) (rand : List Nat) (x : String)
    (hch : cleanHost x = cleanHost req.durableLinkInfo.host) :
    CreateDurableLink store (withHost req x) pid cfg rand =
      CreateDurableLink store req pid cfg rand := by
  unfold CreateDurableLink
  rw [withHost_host, hch, withHost_link]
  cases hc : cleanHost req.durableLinkInfo.host with
  | error e => rfl
  | ok host =>
      simp only
      by_cases hd : isDomainAllowed cfg.domainAllowList req.durableLinkInfo.link
      · rw [if_neg (not_not_intro hd), if_neg (not_not_intro hd),
          normalizeCreate_withHost]
        simp only [createOrGet_setHost]
      · rw [if_pos hd, if_pos hd]

theorem cutFirst_not_mem {t : Char} {l : List Char} (h : t ∉ l) :
    cutFirst t l = (l, []) := by
  induction l with
  | nil => rfl
  | cons c cs ih =>
      simp only [List.mem_cons, not_or] at h
      unfold cutFirst
      rw [if_neg (fun hc => h.1 hc.symm)]
      simp only [ih h.2]

theorem cutFirst_first {t : Char} {l1 l2 : List Char} (h : t ∉ l1) :
    cutFirst t (l1 ++ t :: l2) = (l1, l2) := by
  induction l1 with
  | nil => simp [cutFirst]
  | cons c cs ih =>
      simp only [List.mem_cons, not_or] at h
      simp only [List.cons_append]
      unfold cutFirst
      rw [if_neg (fun hc => h.1 hc.symm)]
      simp only [ih h.2]

theorem splitFirstKeep_not_mem {t : Char} {l : List Char} (h : t ∉ l) :
    splitFirstKeep t l = (l, []) := by
  induction l with
  | nil => rfl
  | cons c cs ih =>
      simp only [List.mem_cons, not_or] at h
      unfold splitFirstKeep
      rw [if_neg (fun hc => h.1 hc.symm)]
      simp only [ih h.2]

theorem splitFirstKeep_first {t : Char} {l1 l2 : List Char} (h : t ∉ l1) :
    splitFirstKeep t (l1 ++ t :: l2) = (l1, t :: l2) := by
  induction l1 with
  | nil => simp [splitFirstKeep]
  | cons c cs ih =>
      simp only [List.mem_cons, not_or] at h
      simp only [List.cons_append]
      unfold splitFirstKeep
      rw [if_neg (fun hc => h.1 hc.symm)]
      simp only [ih h.2]

theorem isPre_self_append (p t : List Char) : isPre p (p ++ t) = true := by
  induction p with
  | nil => rfl
  | cons c cs ih => simp [isPre, ih]

theorem containsSeq_of_isPre {pat l : List Char} (hl : l ≠ []) (h : isPre pat l = true) :
    containsSeq pat l = true := by
  cases l with
  | nil => exact absurd rfl hl
  | cons c cs => simp [containsSeq, h]

theorem containsSeq_append_right {pat l2 : List Char} (l1 : List Char)
    (h : containsSeq pat l2 = true) : containsSeq pat (l1 ++ l2) = true := by
  induction l1 with
  | nil => exact h
  | cons c cs ih =>
      simp only [List.cons_append, containsSeq, List.append_eq]
      rw [ih, Bool.or_true]

theorem containsSeq_colon_append {p : List Char} {l m : List Char} (h : ':' ∉ l) :
    containsSeq (':' :: p) (l ++ m) = containsSeq (':' :: p) m := by
  induction l with
  | nil => rfl
  | cons c cs ih =>
      simp only [List.mem_cons, not_or] at h
      simp only [List.cons_append, containsSeq, List.append_eq]
      rw [ih h.2]
      have h1 : ¬ (':' = c) := h.1
      cases hm : cs ++ m with
      | nil => simp [isPre, h1]
      | cons d ds => simp [isPre, h1]

theorem containsSeq_colon_cons {d : Char} {m : List Char} (hd : d ≠ '/') :
    containsSeq [':', '/', '/'] (':' :: d :: m) = containsSeq [':', '/', '/'] (d :: m) := by
  have hd1 : ¬ ('/' = d) := fun hc => hd hc.symm
  have h1 : isPre [':', '/', '/'] (':' :: d :: m) = false := by
    simp [isPre, hd1]
  simp [containsSeq, h1]

theorem isAlphaCh_bounds {c : Char} (h : isAlphaCh c = true) :
    97 ≤ c.toNat ∧ c.toNat ≤ 122 ∨ 65 ≤ c.toNat ∧ c.toNat ≤ 90 := by
  simp only [isAlphaCh, Bool.or_eq_true, Bool.and_eq_true, decide_eq_true_eq] at h
  rcases h with ⟨a, b⟩ | ⟨a, b⟩
  · exact Or.inl ⟨a, b⟩
  · exact Or.inr ⟨a, b⟩

theorem isDigitCh_bounds {c : Char} (h : isDigitCh c = true) :
    48 ≤ c.toNat ∧ c.toNat ≤ 57 := by
  simp only [isDigitCh, Bool.and_eq_true, decide_eq_true_eq] at h
  exact ⟨h.1, h.2⟩

theorem isAlnumCh_printable {c : Char} (h : isAlnumCh c = true) :
    (c.toNat < 32 || c.toNat = 127) = false := by
  simp only [isAlnumCh, Bool.or_eq_true] at h
  simp only [Bool.or_eq_false_iff, decide_eq_false_iff_not]
  rcases h with h | h
  · rcases isAlphaCh_bounds h with ⟨a, b⟩ | ⟨a, b⟩ <;> exact ⟨by omega, by omega⟩
  · obtain ⟨a, b⟩ := isDigitCh_bounds h
    exact ⟨by omega, by omega⟩

theorem isSchemeCh_printable {c : Char} (h : isSchemeCh c = true) :
    (c.toNat < 32 || c.toNat = 127) = false := by
  simp only [isSchemeCh, Bool.or_eq_true, decide_eq_true_eq] at h
  rcases h with ((h | h) | h) | h
  · exact isAlnumCh_printable h
  · subst h; decide
  · subst h; decide
  · subst h; decide

theorem isHostCh_printable {c : Char} (h : isHostCh c = true) :
    (c.toNat < 32 || c.toNat = 127) = false := by
  simp only [isHostCh, Bool.or_eq_true, decide_eq_true_eq] at h
  rcases h with (h | h) | h
  · exact isAlnumCh_printable h
  · subst h; decide
  · subst h; decide

theorem isDigitCh_printable {c : Char} (h : isDigitCh c = true) :
    (c.toNat < 32 || c.toNat = 127) = false := by
  obtain ⟨a, b⟩ := isDigitCh_bounds h
  simp only [Bool.or_eq_false_iff, decide_eq_false_iff_not]
  exact ⟨by omega, by omega⟩

theorem isHostCh_ne {c d : Char} (h : isHostCh c = true)
    (hd : isHostCh d = false) : c ≠ d := by
  intro he; subst he; rw [h] at hd; exact Bool.noConfusion hd

theorem isSchemeCh_ne {c d : Char} (h : isSchemeCh c = true)
    (hd : isSchemeCh d = false) : c ≠ d := by
  intro he; subst he; rw [h] at hd; exact Bool.noConfusion hd

theorem isDigitCh_ne {c d : Char} (h : isDigitCh c = true)
    (hd : isDigitCh d = false) : c ≠ d := by
  intro he; subst he; rw [h] at hd; exact Bool.noConfusion hd

theorem mk_data (l : List Char) : (String.mk l).data = l := rfl

theorem schemeScan_append : ∀ (sch acc rest : List Char),
    (∀ c ∈ sch, isSchemeCh c = true) →
    schemeScan acc (sch ++ ':' :: rest) = some (acc.reverse ++ sch, rest) := by
  intro sch
  induction sch with
  | nil =>
      intro acc rest _
      simp [schemeScan]
  | cons c cs ih =>
      intro acc rest hs
      have hc : isSchemeCh c = true := hs c (List.mem_cons_self c cs)
      simp only [List.cons_append, schemeScan]
      rw [if_neg (isSchemeCh_ne hc (by decide)), if_pos hc]
      have e := ih (c :: acc) rest (fun d hd => hs d (List.mem_cons_of_mem c hd))
      simp only [List.append_eq] at e ⊢
      rw [e]
      simp

theorem getScheme_eq {sch rest : List Char} (hne : sch ≠ [])
    (hs : ∀ c ∈ sch, isSchemeCh c = true)
    (hh : isAlphaCh (sch.headD 'a') = true) :
    getScheme (sch ++ ':' :: rest) = some (sch, rest) := by
  cases sch with
  | nil => exact absurd rfl hne
  | cons c cs =>
      simp only [List.headD] at hh
      have hc : isSchemeCh c = true := hs c (List.mem_cons_self c cs)
      simp only [List.cons_append, getScheme]
      rw [if_neg (isSchemeCh_ne hc (by decide)), if_neg (not_not_intro hh)]
      have e := schemeScan_append (c :: cs) [] rest hs
      simp only [List.cons_append, List.reverse_nil, List.nil_append] at e
      rw [e]

theorem urlParse_authority (sch hp rest : List Char)
    (hsne : sch ≠ []) (hs : ∀ c ∈ sch, isSchemeCh c = true)
    (hsh : isAlphaCh (sch.headD 'a') = true)
    (hctrl : ∀ c ∈ hp, (c.toNat < 32 || c.toNat = 127) = false)
    (hhash : '#' ∉ hp) (hq : '?' ∉ hp) (hsl : '/' ∉ hp) (hat : '@' ∉ hp)
    (hhd : ∃ c t, hp = c :: t ∧ c ≠ '[')
    (hcolon : splitLastColon hp = none ∨
      ∃ pr, splitLastColon hp = some pr ∧ pr.2.all isDigitCh = true)
    (hrest : restOk rest = true) :
    urlParse (String.mk (sch ++ ':' :: '/' :: '/' :: (hp ++ rest))) =
      some ⟨String.mk (sch.map lowerCh), String.mk [], none,
            String.mk hp, String.mk rest, String.mk [], String.mk []⟩ := by
  have hrest2 : ∀ c ∈ rest, 32 < c.toNat ∧ c.toNat ≠ 127 ∧ c ≠ '#' ∧ c ≠ '?' := by
    have h1 := hrest
    simp only [restOk, Bool.and_eq_true, List.all_eq_true] at h1
    intro c hc
    have h2 := h1.2 c hc
    simp only [Bool.and_eq_true, decide_eq_true_eq] at h2
    exact ⟨h2.1.1.1, h2.1.1.2, h2.1.2, h2.2⟩
  have hrhead : rest = [] ∨ rest.head? = some '/' := by
    have h1 := hrest
    simp only [restOk, Bool.and_eq_true, Bool.or_eq_true, List.isEmpty_eq_true,
      decide_eq_true_eq] at h1
    exact h1.1
  have hprint : ((sch ++ ':' :: '/' :: '/' :: (hp ++ rest)).any
      fun c => c.toNat < 32 || c.toNat = 127) = false := by
    rw [List.any_eq_false]
    intro x hx
    rw [Bool.not_eq_true]
    simp only [List.mem_append, List.mem_cons] at hx
    rcases hx with hx | hx | hx | hx | hx | hx
    · exact isSchemeCh_printable (hs x hx)
    · subst hx; decide
    · subst hx; decide
    · subst hx; decide
    · exact hctrl x hx
    · obtain ⟨a, b, _, _⟩ := hrest2 x hx
      simp only [Bool.or_eq_false_iff, decide_eq_false_iff_not]
      exact ⟨by omega, by omega⟩
  have hnohash : '#' ∉ sch ++ ':' :: '/' :: '/' :: (hp ++ rest) := by
    intro hx
    simp only [List.mem_append, List.mem_cons] at hx
    rcases hx with hx | hx | hx | hx | hx | hx
    · exact absurd (hs _ hx) (by decide)
    · exact absurd hx (by decide)
    · exact absurd hx (by decide)
    · exact absurd hx (by decide)
    · exact hhash hx
    · exact absurd rfl (hrest2 _ hx).2.2.1
  have hnoq : '?' ∉ ('/' :: '/' :: (hp ++ rest) : List Char) := by
    intro hx
    simp only [List.mem_cons, List.mem_append] at hx
    rcases hx with hx | hx | hx | hx
    · exact absurd hx (by decide)
    · exact absurd hx (by decide)
    · exact hq hx
    · exact absurd rfl (hrest2 _ hx).2.2.2
  have hsplit : splitFirstKeep '/' (hp ++ rest) = (hp, rest) := by
    rcases hrhead with hr | hr
    · subst hr
      rw [List.append_nil]
      exact splitFirstKeep_not_mem hsl
    · cases rest with
      | nil => simp at hr
      | cons r0 rs =>
          simp only [List.head?_cons, Option.some.injEq] at hr
          subst hr
          exact splitFirstKeep_first hsl
  have hcontat : (hp : List Char).contains '@' = false := by
    simpa using hat
  obtain ⟨c0, t0, hhp, hc0⟩ := hhd
  simp only [urlParse, mk_data]
  rw [hprint]
  simp only [Bool.false_eq_true, if_false]
  simp only [cutFirst_not_mem hnohash]
  rw [getScheme_eq hsne hs hsh]
  simp only [cutFirst_not_mem hnoq]
  rw [if_neg (fun hcond => hcond.1 rfl)]
  rw [if_neg (fun hcond => hcond.1 rfl)]
  have hmapne : List.map lowerCh sch ≠ [] := by simp [hsne]
  rw [if_pos ⟨Or.inl hmapne, isPre_self_append ['/', '/'] (hp ++ rest)⟩]
  simp only [List.drop_succ_cons, List.drop_zero]
  simp only [hsplit]
  simp only [splitLastUser]
  rw [hcontat]
  simp only [Bool.false_eq_true, if_false]
  rw [if_neg (fun hc => hc0 (Option.some.inj (by rw [hhp] at hc; exact hc)))]
  rcases hcolon with hcol | ⟨pr, hcol, hall⟩
  · rw [hcol]
    rfl
  · rw [hcol]
    simp [hall]

theorem splitLastColon_no_colon {l : List Char} (h : ':' ∉ l) :
    splitLastColon l = none := by
  have hc : l.contains ':' = false := by simpa using h
  unfold splitLastColon
  rw [hc]
  simp

theorem splitLastColon_port {h ds : List Char} (_hh : ':' ∉ h) (hds : ':' ∉ ds) :
    splitLastColon (h ++ ':' :: ds) = some (h, ds) := by
  unfold splitLastColon
  rw [if_pos (by simp)]
  have hrev : (h ++ ':' :: ds).reverse = ds.reverse ++ ':' :: h.reverse := by
    simp [List.reverse_append, List.reverse_cons, List.append_assoc]
  rw [hrev, cutFirst_first (by simpa using hds)]
  simp

theorem hostnameStr_no_colon {h : List Char} (hh : ':' ∉ h) :
    hostnameStr (String.mk h) = String.mk h := by
  unfold hostnameStr
  rw [mk_data, splitLastColon_no_colon hh]

theorem hostnameStr_port {h ds : List Char} (hh : ':' ∉ h)
    (hds : ds.all isDigitCh = true) :
    hostnameStr (String.mk (h ++ ':' :: ds)) = String.mk h := by
  have hdsc : ':' ∉ ds := by
    intro hm
    exact absurd (List.all_eq_true.mp hds ':' hm) (by decide)
  unfold hostnameStr
  rw [mk_data, splitLastColon_port hh hdsc]
  simp [hds]

theorem dropWhile_all_append {p : Char → Bool} {ws m : List Char}
    (h : ∀ c ∈ ws, p c = true) : (ws ++ m).dropWhile p = m.dropWhile p := by
  induction ws with
  | nil => rfl
  | cons c cs ih =>
      simp only [List.cons_append, List.dropWhile_cons]
      rw [h c (List.mem_cons_self c cs)]
      simp only [if_true]
      exact ih (fun d hd => h d (List.mem_cons_of_mem c hd))

theorem dropWhile_all_false {p : Char → Bool} {l : List Char}
    (h : ∀ c ∈ l, p c = false) : l.dropWhile p = l := by
  cases l with
  | nil => rfl
  | cons c cs =>
      simp only [List.dropWhile_cons]
      rw [h c (List.mem_cons_self c cs)]
      simp

theorem trimSpace_decorated {ws1 ws2 core : List Char}
    (h1 : ∀ c ∈ ws1, isSpaceCh c = true) (h2 : ∀ c ∈ ws2, isSpaceCh c = true)
    (hc : ∀ c ∈ core, isSpaceCh c = false) (hne : core ≠ []) :
    trimSpace (String.mk (ws1 ++ core ++ ws2)) = String.mk core := by
  unfold trimSpace
  rw [mk_data, List.append_assoc, dropWhile_all_append h1]
  cases core with
  | nil => exact absurd rfl hne
  | cons c0 cs =>
      rw [List.cons_append]
      rw [show ((c0 :: (cs ++ ws2)).dropWhile isSpaceCh) = c0 :: (cs ++ ws2) by
        simp only [List.dropWhile_cons]
        rw [hc c0 (List.mem_cons_self c0 cs)]
        simp]
      have hrev : (c0 :: (cs ++ ws2) : List Char).reverse =
          ws2.reverse ++ (c0 :: cs).reverse := by
        simp [List.reverse_cons, List.reverse_append, List.append_assoc]
      rw [hrev, dropWhile_all_append (fun d hd => h2 d (List.mem_reverse.mp hd))]
      rw [dropWhile_all_false (fun d hd => hc d (List.mem_reverse.mp hd))]
      rw [List.reverse_reverse]

theorem containsSeq_sep {sch tail : List Char} :
    containsSeq "://".data (sch ++ ':' :: '/' :: '/' :: tail) = true := by
  apply containsSeq_append_right
  apply containsSeq_of_isPre (by simp)
  exact isPre_self_append [':', '/', '/'] tail

theorem not_space_of_gt {c : Char} (h : 32 < c.toNat) : isSpaceCh c = false := by
  simp only [isSpaceCh, Bool.or_eq_false_iff, decide_eq_false_iff_not]
  refine ⟨⟨⟨⟨⟨?_, ?_⟩, ?_⟩, ?_⟩, ?_⟩, ?_⟩
  · intro he; subst he; exact absurd h (by decide)
  · intro he; subst he; exact absurd h (by decide)
  · intro he; subst he; exact absurd h (by decide)
  · intro he; subst he; exact absurd h (by decide)
  · omega
  · omega

theorem isSchemeCh_gt32 {c : Char} (h : isSchemeCh c = true) : 32 < c.toNat := by
  simp only [isSchemeCh, Bool.or_eq_true, decide_eq_true_eq] at h
  rcases h with ((h | h) | h) | h
  · simp only [isAlnumCh, Bool.or_eq_true] at h
    rcases h with h | h
    · rcases isAlphaCh_bounds h with ⟨a, _⟩ | ⟨a, _⟩ <;> omega
    · obtain ⟨a, _⟩ := isDigitCh_bounds h; omega
  · subst h; decide
  · subst h; decide
  · subst h; decide

theorem isHostCh_gt32 {c : Char} (h : isHostCh c = true) : 32 < c.toNat := by
  simp only [isHostCh, Bool.or_eq_true, decide_eq_true_eq] at h
  rcases h with (h | h) | h
  · simp only [isAlnumCh, Bool.or_eq_true] at h
    rcases h with h | h
    · rcases isAlphaCh_bounds h with ⟨a, _⟩ | ⟨a, _⟩ <;> omega
    · obtain ⟨a, _⟩ := isDigitCh_bounds h; omega
  · subst h; decide
  · subst h; decide

theorem isDigitCh_gt32 {c : Char} (h : isDigitCh c = true) : 32 < c.toNat := by
  obtain ⟨a, _⟩ := isDigitCh_bounds h; omega

theorem cleanHost_decorate (ws1 ws2 : List Char) (schOpt : Option (List Char))
    (h : List Char) (pOpt : Option (List Char)) (rest : List Char)
    (hw1 : ∀ c ∈ ws1, isSpaceCh c = true) (hw2 : ∀ c ∈ ws2, isSpaceCh c = true)
    (hso : ∀ sch, schOpt = some sch →
      sch ≠ [] ∧ isAlphaCh (sch.headD 'a') = true ∧ ∀ c ∈ sch, isSchemeCh c = true)
    (hhne : h ≠ []) (hhc : ∀ c ∈ h, isHostCh c = true)
    (hpo : ∀ ds, pOpt = some ds → ds ≠ [] ∧ ∀ c ∈ ds, isDigitCh c = true)
    (hrest : restOk rest = true)
    (hbare : schOpt = none → ':' ∉ rest) :
    cleanHost (decorate ws1 schOpt h pOpt rest ws2) = .ok (String.mk h) := by
  have hrestgt : ∀ c ∈ rest, 32 < c.toNat ∧ c.toNat ≠ 127 ∧ c ≠ '#' ∧ c ≠ '?' := by
    have h1 := hrest
    simp only [restOk, Bool.and_eq_true, List.all_eq_true] at h1
    intro c hc
    have h2 := h1.2 c hc
    simp only [Bool.and_eq_true, decide_eq_true_eq] at h2
    exact ⟨h2.1.1.1, h2.1.1.2, h2.1.2, h2.2⟩
  have hppc : ∀ c ∈ portPart pOpt, c = ':' ∨ isDigitCh c = true := by
    intro c hc
    rcases hq2 : pOpt with _ | ds
    · rw [hq2] at hc; simp [portPart] at hc
    · rw [hq2] at hc
      simp only [portPart, List.mem_cons] at hc
      rcases hc with hc | hc
      · exact Or.inl hc
      · exact Or.inr ((hpo ds hq2).2 c hc)
  have hhpc : ∀ c ∈ h ++ portPart pOpt, isHostCh c = true ∨ c = ':' ∨ isDigitCh c = true := by
    intro c hc
    rcases List.mem_append.mp hc with hc | hc
    · exact Or.inl (hhc c hc)
    · rcases hppc c hc with hc | hc
      · exact Or.inr (Or.inl hc)
      · exact Or.inr (Or.inr hc)
  have hctrl : ∀ c ∈ h ++ portPart pOpt, (c.toNat < 32 || c.toNat = 127) = false := by
    intro c hc
    rcases hhpc c hc with hc | hc | hc
    · exact isHostCh_printable hc
    · subst hc; decide
    · exact isDigitCh_printable hc
  have hhash : '#' ∉ h ++ portPart pOpt := by
    intro hm
    rcases hhpc _ hm with hc | hc | hc
    · exact absurd hc (by decide)
    · exact absurd hc (by decide)
    · exact absurd hc (by decide)
  have hq : '?' ∉ h ++ portPart pOpt := by
    intro hm
    rcases hhpc _ hm with hc | hc | hc
    · exact absurd hc (by decide)
    · exact absurd hc (by decide)
    · exact absurd hc (by decide)
  have hsl : '/' ∉ h ++ portPart pOpt := by
    intro hm
    rcases hhpc _ hm with hc | hc | hc
    · exact absurd hc (by decide)
    · exact absurd hc (by decide)
    · exact absurd hc (by decide)
  have hat : '@' ∉ h ++ portPart pOpt := by
    intro hm
    rcases hhpc _ hm with hc | hc | hc
    · exact absurd hc (by decide)
    · exact absurd hc (by decide)
    · exact absurd hc (by decide)
  have hhcolon : ':' ∉ h := by
    intro hm
    exact absurd (hhc ':' hm) (by decide)
  have hhd : ∃ c t, h ++ portPart pOpt = c :: t ∧ c ≠ '[' := by
    cases h with
    | nil => exact absurd rfl hhne
    | cons c0 t0 =>
        exact ⟨c0, t0 ++ portPart pOpt, by simp,
          isHostCh_ne (hhc c0 (List.mem_cons_self c0 t0)) (by decide)⟩
  have hcolon : splitLastColon (h ++ portPart pOpt) = none ∨
      ∃ pr, splitLastColon (h ++ portPart pOpt) = some pr ∧ pr.2.all isDigitCh = true := by
    rcases hq2 : pOpt with _ | ds
    · left
      simp only [portPart, List.append_nil]
      exact splitLastColon_no_colon hhcolon
    · right
      have hdsc : ':' ∉ ds := by
        intro hm
        exact absurd ((hpo ds hq2).2 ':' hm) (by decide)
      refine ⟨(h, ds), ?_, ?_⟩
      · simp only [portPart]
        exact splitLastColon_port hhcolon hdsc
      · exact List.all_eq_true.mpr (hpo ds hq2).2
  have hhn : hostnameStr (String.mk (h ++ portPart pOpt)) = String.mk h := by
    rcases hq2 : pOpt with _ | ds
    · simp only [portPart, List.append_nil]
      exact hostnameStr_no_colon hhcolon
    · simp only [portPart]
      exact hostnameStr_port hhcolon (List.all_eq_true.mpr (hpo ds hq2).2)
  have hppgt : ∀ c ∈ h ++ portPart pOpt, 32 < c.toNat := by
    intro c hc
    rcases hhpc c hc with hc | hc | hc
    · exact isHostCh_gt32 hc
    · subst hc; decide
    · exact isDigitCh_gt32 hc
  rcases schOpt with _ | sch
  · -- no scheme: https:// is prepended
    have hrc : ':' ∉ rest := hbare rfl
    have hcore : ∀ c ∈ h ++ portPart pOpt ++ rest, isSpaceCh c = false := by
      intro c hc
      rcases List.mem_append.mp hc with hc | hc
      · exact not_space_of_gt (hppgt c hc)
      · exact not_space_of_gt (hrestgt c hc).1
    have hcorene : (h ++ portPart pOpt ++ rest : List Char) ≠ [] := by
      intro he
      apply hhne
      have hlen := congrArg List.length he
      simp only [List.length_append, List.length_nil] at hlen
      exact List.length_eq_zero.mp (by omega)
    have hnosep : containsSeq "://".data (h ++ portPart pOpt ++ rest) = false := by
      rcases hq2 : pOpt with _ | ds
      · simp only [portPart, List.append_nil]
        show containsSeq (':' :: ['/', '/']) (h ++ rest) = false
        rw [show (h ++ rest : List Char) = (h ++ rest) ++ [] from (List.append_nil _).symm]
        rw [containsSeq_colon_append (by
          intro hm
          rcases List.mem_append.mp hm with hm | hm
          · exact hhcolon hm
          · exact hrc hm)]
        rfl
      · obtain ⟨hdne, hdall⟩ := hpo ds hq2
        cases ds with
        | nil => exact absurd rfl hdne
        | cons d0 ds0 =>
            simp only [portPart]
            have hshape2 : (h ++ ':' :: d0 :: ds0 ++ rest : List Char) =
                h ++ ':' :: d0 :: (ds0 ++ rest) := by
              simp [List.append_assoc]
            rw [hshape2]
            show containsSeq (':' :: ['/', '/']) (h ++ ':' :: d0 :: (ds0 ++ rest)) = false
            rw [containsSeq_colon_append hhcolon]
            rw [containsSeq_colon_cons (isDigitCh_ne
              (hdall d0 (List.mem_cons_self d0 ds0)) (by decide))]
            rw [show (d0 :: (ds0 ++ rest) : List Char) =
              (d0 :: (ds0 ++ rest)) ++ [] from (List.append_nil _).symm]
            rw [containsSeq_colon_append (by
              intro hm
              rcases List.mem_cons.mp hm with hm | hm
              · exact absurd (hdall d0 (List.mem_cons_self d0 ds0))
                  (by rw [← hm]; decide)
              · rcases List.mem_append.mp hm with hm | hm
                · exact absurd (hdall ':' (List.mem_cons_of_mem d0 hm)) (by decide)
                · exact hrc hm)]
            rfl
    simp only [cleanHost, decorate, schemeSepPart, List.nil_append]
    rw [trimSpace_decorated hw1 hw2 hcore hcorene]
    rw [if_neg (fun he => hcorene (by
      have := congrArg String.data he
      simpa using this))]
    simp only [mk_data]
    rw [if_neg (fun hc => Bool.noConfusion (hnosep.symm.trans hc))]
    have hstr : ("https://" ++ String.mk (h ++ portPart pOpt ++ rest) : String) =
        String.mk ("https".data ++ ':' :: '/' :: '/' :: ((h ++ portPart pOpt) ++ rest)) := by
      apply String.ext
      rw [String.data_append, mk_data, mk_data]
      rw [show "https://".data =
        ('h' :: 't' :: 't' :: 'p' :: 's' :: ':' :: '/' :: '/' :: [] : List Char) from rfl]
      rw [show "https".data = ('h' :: 't' :: 't' :: 'p' :: 's' :: [] : List Char) from rfl]
      simp [List.append_assoc]
    rw [hstr]
    rw [urlParse_authority "https".data (h ++ portPart pOpt) rest (by decide)
      (by decide) (by decide) hctrl hhash hq hsl hat hhd hcolon hrest]
    simp only [hhn]
  · -- explicit scheme
    obtain ⟨hsne, hsh, hsc⟩ := hso sch rfl
    have hcore : ∀ c ∈ (sch ++ [':', '/', '/']) ++ h ++ portPart pOpt ++ rest,
        isSpaceCh c = false := by
      intro c hc
      rcases List.mem_append.mp hc with hc | hc
      · rcases List.mem_append.mp hc with hc | hc
        · rcases List.mem_append.mp hc with hc | hc
          · rcases List.mem_append.mp hc with hc | hc
            · exact not_space_of_gt (isSchemeCh_gt32 (hsc c hc))
            · rcases List.mem_cons.mp hc with hc | hc
              · subst hc; decide
              · rcases List.mem_cons.mp hc with hc | hc
                · subst hc; decide
                · rcases List.mem_cons.mp hc with hc | hc
                  · subst hc; decide
                  · simp at hc
          · exact not_space_of_gt (hppgt c (List.mem_append.mpr (Or.inl hc)))
        · exact not_space_of_gt (hppgt c (List.mem_append.mpr (Or.inr hc)))
      · exact not_space_of_gt (hrestgt c hc).1
    have hcorene2 :
        ((sch ++ [':', '/', '/']) ++ h ++ portPart pOpt ++ rest : List Char) ≠ [] := by
      intro he
      apply hhne
      have hlen := congrArg List.length he
      simp only [List.length_append, List.length_nil] at hlen
      exact List.length_eq_zero.mp (by omega)
    have hcseq : containsSeq "://".data
        ((sch ++ [':', '/', '/']) ++ h ++ portPart pOpt ++ rest) = true := by
      have hsh2 : ((sch ++ [':', '/', '/']) ++ h ++ portPart pOpt ++ rest : List Char) =
          sch ++ ':' :: '/' :: '/' :: (h ++ (portPart pOpt ++ rest)) := by
        simp [List.append_assoc]
      rw [hsh2]
      exact containsSeq_sep
    simp only [cleanHost, decorate, schemeSepPart]
    rw [trimSpace_decorated hw1 hw2 hcore hcorene2]
    rw [if_neg (fun he => hcorene2 (by
      have h0 := congrArg String.data he
      simp at h0))]
    simp only [mk_data]
    rw [if_pos hcseq]
    have hsh3 : ((sch ++ [':', '/', '/']) ++ h ++ portPart pOpt ++ rest : List Char) =
        sch ++ ':' :: '/' :: '/' :: ((h ++ portPart pOpt) ++ rest) := by
      simp [List.append_assoc]
    rw [hsh3]
    rw [urlParse_authority sch (h ++ portPart pOpt) rest hsne hsc hsh hctrl hhash
      hq hsl hat hhd hcolon hrest]
    simp only [hhn]

theorem create_rows_host {store : Store} {req : CreateDurableLinkRequest}
    {pid : Option String} {cfg : TenantConfig} {rand : List Nat}
    {resp : ShortLinkResponse} {s' : Store} {hst : String}
    (hok : CreateDurableLink store req pid cfg rand = .ok (resp, s'))
    (hch : cleanHost req.durableLinkInfo.host = .ok hst) :
    ∀ row ∈ s', row ∈ store ∨ row.host = hst := by
  obtain ⟨host, hch2, hd, hresp, hstore⟩ := create_ok_elim hok
  have hh : host = hst := Except.ok.inj (hch2.symm.trans hch)
  subst hh
  intro row hrow
  rw [hstore] at hrow
  rcases createOrGet_rows store host _ _ pid cfg rand row hrow with hm | ⟨p, hp⟩
  · exact Or.inl hm
  · right
    rw [hp, fromDL_host]

/-- C9: rows inserted by the structured `CreateDurableLink` store the
`CleanHost` output as their host; `CleanHost` strips surrounding whitespace,
an explicit scheme, a numeric port and a trailing path from a well-formed
hostname (defaulting the scheme to `https`); and two requests whose host
fields clean to the same value produce identical creation results, hence
the same storage rows and the same reuse-lookup key. -/
theorem C9_cleanhost_storage_key :
    (∀ (store : Store) (req : CreateDurableLinkRequest) (pid : Option String)
        (cfg : TenantConfig) (rand : List Nat) (resp : ShortLinkResponse)
        (s2 : Store) (hst : String),
      CreateDurableLink store req pid cfg rand = .ok (resp, s2) →
      cleanHost req.durableLinkInfo.host = .ok hst →
      ∀ row ∈ s2, row ∈ store ∨ row.host = hst) ∧
    (∀ (ws1 ws2 : List Char) (schOpt : Option (List Char)) (h : List Char)
        (pOpt : Option (List Char)) (rest : List Char),
      (∀ c ∈ ws1, isSpaceCh c = true) → (∀ c ∈ ws2, isSpaceCh c = true) →
      (∀ sch, schOpt = some sch →
        sch ≠ [] ∧ isAlphaCh (sch.headD 'a') = true ∧
          ∀ c ∈ sch, isSchemeCh c = true) →
      h ≠ [] → (∀ c ∈ h, isHostCh c = true) →
      (∀ ds, pOpt = some ds → ds ≠ [] ∧ ∀ c ∈ ds, isDigitCh c = true) →
      restOk rest = true → (schOpt = none → ':' ∉ rest) →
      cleanHost (decorate ws1 schOpt h pOpt rest ws2) = .ok (String.mk h)) ∧
    (∀ (store : Store) (req : CreateDurableLinkRequest) (pid : Option String)
        (cfg : TenantConfig) (rand : List Nat) (x : String),
      cleanHost x = cleanHost req.durableLinkInfo.host →
      CreateDurableLink store (withHost req x) pid cfg rand =
        CreateDurableLink store req pid cfg rand) := by
  refine ⟨?_, ?_, ?_⟩
  · intro store req pid cfg rand resp s2 hst hok hch
    exact create_rows_host hok hch
  · intro ws1 ws2 schOpt h pOpt rest hw1 hw2 hso hhne hhc hpo hrest hbare
    exact cleanHost_decorate ws1 ws2 schOpt h pOpt rest hw1 hw2 hso hhne hhc
      hpo hrest hbare
  · intro store req pid cfg rand x hch
    exact create_withHost_eq store req pid cfg rand x hch

/-- Witness for C9: a concrete creation stores host `example.com`; cleaning
strips whitespace, scheme, port and path both with an explicit scheme and
with the defaulted one; and a decorated host gives the identical creation
result. -/
theorem C9_cleanhost_storage_key_witness :
    (c9pair.2.headD c9defRow ∈ ([] : Store) ∨
      (c9pair.2.headD c9defRow).host = "example.com") ∧
    cleanHost " http://example.com:8080/x/y " = .ok (String.mk "example.com".data) ∧
    cleanHost "example.com:8080/x/y" = .ok (String.mk "example.com".data) ∧
    CreateDurableLink [] (withHost c9req " example.com:443/home ") none sampleCfg
        (List.range 8) =
      CreateDurableLink [] c9req none sampleCfg (List.range 8) := by
  refine ⟨?_, ?_, ?_, ?_⟩
  · exact C9_cleanhost_storage_key.1 [] c9req none sampleCfg (List.range 8)
      c9pair.1 c9pair.2 "example.com" (by decide) (by decide)
      (c9pair.2.headD c9defRow) (by decide)
  · have hcl := C9_cleanhost_storage_key.2.1 [' '] [' ']
      (some "http".data) "example.com".data (some "8080".data) "/x/y".data
      (by decide) (by decide)
      (fun sch hs => by
        have he := (Option.some.inj hs).symm
        subst he
        exact ⟨by decide, by decide, by decide⟩)
      (by decide) (by decide)
      (fun ds hs => by
        have he := (Option.some.inj hs).symm
        subst he
        exact ⟨by decide, by decide⟩)
      (by decide) (fun hn => Option.noConfusion hn)
    rw [show decorate [' '] (some "http".data) "example.com".data
      (some "8080".data) "/x/y".data [' '] = " http://example.com:8080/x/y "
      from by decide] at hcl
    exact hcl
  · have hcl := C9_cleanhost_storage_key.2.1 [] []
      none "example.com".data (some "8080".data) "/x/y".data
      (by decide) (by decide) (fun sch hs => Option.noConfusion hs)
      (by decide) (by decide)
      (fun ds hs => by
        have he := (Option.some.inj hs).symm
        subst he
        exact ⟨by decide, by decide⟩)
      (by decide) (fun _ => by decide)
    rw [show decorate [] none "example.com".data (some "8080".data)
      "/x/y".data [] = "example.com:8080/x/y" from by decide] at hcl
    exact hcl
  · exact C9_cleanhost_storage_key.2.2 [] c9req none sampleCfg (List.range 8)
      " example.com:443/home " (by decide)

end DurableLinks
